import Mathlib

/-!
# CIRC: a circular chat queue with round-robin agents and a JSON snapshot

Shallow embedding of `src/backend/main.cpp`.

* `ChatRequest`, `CircularQueue` are the two classes; the private fields of
  `CircularQueue` are the fields of the structure, in declaration order
  (the path `stateFile` is not a field: the one file it names is the `disk`
  component of `Machine`).
* A C++ `int` is an `Int`.  The cursors and the size move within the capacity
  of a slot array held in memory and are added in the integers; the id counter,
  which grows with every add, wraps at 32 bits (`wrapInt`), and so does every
  integer read from the snapshot.
* `%` on `int` is truncated remainder (`Int.tmod`); a zero divisor and an
  out-of-range subscript have no defined result and are modelled by `none`,
  like an exception that leaves the program.
* The clock read by the `ChatRequest` constructor is an argument (`now`).
* The state file holds a JSON document; `Json` models the values of the JSON
  library the program includes (`json.hpp`), with integers as the only numbers,
  and the text written by `dump` is identified with the value it denotes.
* The text of `getJsonStatus` and the lines of `listChats` are strings built as
  the code builds them; a method that prints or returns text also returns the
  machine, which it leaves as it was.
* `exec` makes calls on one queue object, `session` runs `main` once per
  command, `runCommands` adds the two reading calls, and `runSteps` adds
  explicit `saveState` and `loadState` steps.
-/

namespace CIRC

/-! ## Machine integers and subscripts -/

/-- Two's-complement reduction of an integer to the range of a 32-bit `int`. -/
def wrapInt (n : Int) : Int := (n + 2147483648) % 4294967296 - 2147483648

/-- The C++ operator `%` on `int`: truncated remainder, undefined for a zero divisor. -/
def cRem (a b : Int) : Option Int :=
  if b = 0 then none else some (Int.tmod a b)

/-- Reading `v[i]` of a `std::vector` with an `int` subscript; `none` when out of range. -/
def slotAt {α : Type} (v : List α) (i : Int) : Option α :=
  if 0 ≤ i then v[i.toNat]? else none

/-- Writing `v[i] = x` of a `std::vector` with an `int` subscript; `none` when out of range. -/
def slotSet {α : Type} (v : List α) (i : Int) (x : α) : Option (List α) :=
  if 0 ≤ i ∧ i.toNat < v.length then some (v.set i.toNat x) else none

/-! ## JSON values (the part of `json.hpp` the program uses) -/

/-- Modelled from the spec: the JSON document of the persisted state file, as
the JSON library the program includes (`json.hpp`, not among the sources) holds
it. Numbers are integers; an object keeps its members in key order. -/
inductive Json where
  | null : Json
  | bool (b : Bool) : Json
  | num (n : Int) : Json
  | str (s : String) : Json
  | arr (items : List Json) : Json
  | obj (members : List (String × Json)) : Json

/-- Modelled from the spec: member lookup by key in an object of `json.hpp`. -/
def findMember (k : String) : List (String × Json) → Option Json
  | [] => none
  | (k', v') :: rest => if k = k' then some v' else findMember k rest

/-- Modelled from the spec: the conversion `get<int>()` of `json.hpp`; numbers
are cast to `int`, booleans to 0 or 1, anything else throws. -/
def Json.getInt : Json → Option Int
  | Json.num n => some (wrapInt n)
  | Json.bool b => some (if b then 1 else 0)
  | _ => none

/-- Modelled from the spec: the conversion `get<std::string>()` of `json.hpp`;
anything but a string throws. -/
def Json.getString : Json → Option String
  | Json.str s => some s
  | _ => none

/-- Modelled from the spec: the element-wise conversion of a `json.hpp` array to
strings. -/
def getStrings : List Json → Option (List String)
  | [] => some []
  | x :: rest =>
    match x.getString, getStrings rest with
    | some s, some ss => some (s :: ss)
    | _, _ => none

/-- Modelled from the spec: the conversion `get<std::vector<std::string>>()` of
`json.hpp`; an array of strings, else throws. -/
def Json.getStringList : Json → Option (List String)
  | Json.arr items => getStrings items
  | _ => none

/-- Modelled from the spec: the call `j.value(key, dflt)` of `json.hpp` at type
`int`; it throws unless `j` is an object, and yields the default when the key is
absent, the converted member otherwise. -/
def Json.valueInt (j : Json) (key : String) (dflt : Int) : Option Int :=
  match j with
  | Json.obj ms =>
    match findMember key ms with
    | none => some dflt
    | some v => v.getInt
  | _ => none

/-- Modelled from the spec: the call `j.value(key, dflt)` of `json.hpp` at type
`std::string`. -/
def Json.valueString (j : Json) (key : String) (dflt : String) : Option String :=
  match j with
  | Json.obj ms =>
    match findMember key ms with
    | none => some dflt
    | some v => v.getString
  | _ => none

/-- Modelled from the spec: the call `j.value(key, dflt)` of `json.hpp` at type
`std::vector<std::string>`. -/
def Json.valueStringList (j : Json) (key : String) (dflt : List String) :
    Option (List String) :=
  match j with
  | Json.obj ms =>
    match findMember key ms with
    | none => some dflt
    | some v => v.getStringList
  | _ => none

/-- Modelled from the spec: the elements `json.hpp` visits in
`for (const auto& item : j[key])` on a non-const `j`. An absent key is inserted
as null, which has no elements; an array yields its elements, an object its
values in key order, and any other value is visited once itself. -/
def Json.itemsAt (j : Json) (key : String) : Option (List Json) :=
  match j with
  | Json.null => some []
  | Json.obj ms =>
    match findMember key ms with
    | none => some []
    | some Json.null => some []
    | some (Json.arr items) => some items
    | some (Json.obj members) => some (members.map Prod.snd)
    | some v => some [v]
  | _ => none

/-! ## The two classes -/

/-- Class `ChatRequest`. -/
structure ChatRequest where
  customerName : String
  agentName : String
  timestamp : String
  id : Int
  deriving DecidableEq, Repr

/-- The default constructor `ChatRequest()`. -/
def ChatRequest.empty : ChatRequest :=
  { customerName := "", agentName := "", timestamp := "", id := 0 }

/-- The constructor `ChatRequest(customer, agent, requestId)`; `now` is the
formatted local time it reads from the clock. -/
def ChatRequest.create (customer agent : String) (requestId : Int) (now : String) :
    ChatRequest :=
  { customerName := customer, agentName := agent, timestamp := now, id := requestId }

/-- The private fields of class `CircularQueue`. -/
structure CircularQueue where
  queue : List ChatRequest
  front : Int
  rear : Int
  size : Int
  capacity : Int
  agents : List String
  currentAgentIndex : Int
  nextId : Int
  deriving DecidableEq, Repr

/-- A queue object together with the content of its state file (`none`: no file). -/
structure Machine where
  mem : CircularQueue
  disk : Option Json

/-- The JSON object pushed onto `j["queue"]` for one slot (members in key order,
as the library stores them). -/
def slotJson (chat : ChatRequest) : Json :=
  Json.obj [("agentName", Json.str chat.agentName),
            ("customerName", Json.str chat.customerName),
            ("id", Json.num chat.id),
            ("timestamp", Json.str chat.timestamp)]

/-- The document `j` built by `saveState` and written to the state file
(members in key order, as the library stores them). -/
def saveState (q : CircularQueue) : Json :=
  Json.obj [("agents", Json.arr (q.agents.map Json.str)),
            ("capacity", Json.num q.capacity),
            ("currentAgentIndex", Json.num q.currentAgentIndex),
            ("front", Json.num q.front),
            ("nextId", Json.num q.nextId),
            ("queue", Json.arr (q.queue.map slotJson)),
            ("rear", Json.num q.rear),
            ("size", Json.num q.size)]

/-- One iteration of the loop of `loadState`: a slot read from `item`. -/
def loadSlot (item : Json) : Option ChatRequest :=
  match item.valueString "customerName" "", item.valueString "agentName" "",
      item.valueString "timestamp" "", item.valueInt "id" 0 with
  | some c, some a, some t, some i =>
    some { customerName := c, agentName := a, timestamp := t, id := i }
  | _, _, _, _ => none

/-- The loop of `loadState` over the stored slots. -/
def loadSlots : List Json → Option (List ChatRequest)
  | [] => some []
  | item :: rest =>
    match loadSlot item, loadSlots rest with
    | some chat, some chats => some (chat :: chats)
    | _, _ => none

/-- The last line of `loadState`: `if ((int)queue.size() < capacity) queue.resize(capacity)`. -/
def ensureSize (queue : List ChatRequest) (capacity : Int) : List ChatRequest :=
  if (queue.length : Int) < capacity then
    queue ++ List.replicate (capacity.toNat - queue.length) ChatRequest.empty
  else queue

/-- Method `loadState`: nothing happens without a file; `none` when the JSON
library throws. -/
def loadState (q : CircularQueue) (disk : Option Json) : Option CircularQueue :=
  match disk with
  | none => some q
  | some j =>
    match j.valueInt "front" 0, j.valueInt "rear" (-1), j.valueInt "size" 0,
        j.valueInt "capacity" q.capacity, j.valueInt "currentAgentIndex" 0,
        j.valueInt "nextId" 1, j.valueStringList "agents" q.agents with
    | some front, some rear, some size, some capacity, some cai, some nextId, some agents =>
      match j.itemsAt "queue" with
      | none => none
      | some items =>
        match loadSlots items with
        | none => none
        | some queue =>
          some { queue := ensureSize queue capacity, front := front, rear := rear,
                 size := size, capacity := capacity, agents := agents,
                 currentAgentIndex := cai, nextId := nextId }
    | _, _, _, _, _, _, _ => none

/-- The agent list the constructor installs. -/
def defaultAgents : List String :=
  ["Agent Alice", "Agent Bob", "Agent Charlie", "Agent Diana", "Agent Eve"]

/-- The fields as the constructor sets them before it calls `loadState`. -/
def freshQueue (cap : Int) : CircularQueue :=
  { queue := List.replicate cap.toNat ChatRequest.empty, front := 0, rear := -1,
    size := 0, capacity := cap, agents := defaultAgents, currentAgentIndex := 0,
    nextId := 1 }

/-- The constructor `CircularQueue(cap, file)`: `queue.resize(cap)` throws for a
negative `cap`. -/
def construct (cap : Int) (disk : Option Json) : Option CircularQueue :=
  if cap < 0 then none else loadState (freshQueue cap) disk

/-- Method `isFull`. -/
def isFull (q : CircularQueue) : Bool := q.size == q.capacity

/-- Method `isEmpty`. -/
def isEmpty (q : CircularQueue) : Bool := q.size == 0

/-- Method `addChat`: the returned flag and the machine afterwards. The sum
`currentAgentIndex + 1` is taken modulo `agents.size()` as a `size_t`; it is
positive here, the subscript `agents[currentAgentIndex]` before it being in
range, so the unsigned remainder is the integer one. The sums `rear + 1`,
`size + 1` and `currentAgentIndex + 1` are integer sums: they are the `int` sums
of the code as long as the operand is below `2^31 - 1`, which holds in every
state reached from a queue of an `int` capacity and which a statement about an
arbitrary state has to assume. -/
def addChat (m : Machine) (customerName now : String) : Option (Bool × Machine) :=
  if isFull m.mem then some (false, m)
  else
    match cRem (m.mem.rear + 1) m.mem.capacity with
    | none => none
    | some rear =>
      match slotAt m.mem.agents m.mem.currentAgentIndex with
      | none => none
      | some agent =>
        match slotSet m.mem.queue rear
            (ChatRequest.create customerName agent m.mem.nextId now) with
        | none => none
        | some queue =>
          match cRem (m.mem.currentAgentIndex + 1) m.mem.agents.length with
          | none => none
          | some cai =>
            let q : CircularQueue :=
              { queue := queue, front := m.mem.front, rear := rear,
                size := m.mem.size + 1, capacity := m.mem.capacity,
                agents := m.mem.agents, currentAgentIndex := cai,
                nextId := wrapInt (m.mem.nextId + 1) }
            some (true, { mem := q, disk := some (saveState q) })

/-- Method `endChat`: the returned flag and the machine afterwards. The sum
`front + 1` is an integer sum: it is the `int` sum of the code as long as
`front` is below `2^31 - 1`, which holds in every state reached from a queue of
an `int` capacity and which a statement about an arbitrary state has to
assume. -/
def endChat (m : Machine) : Option (Bool × Machine) :=
  if isEmpty m.mem then some (false, m)
  else
    match cRem (m.mem.front + 1) m.mem.capacity with
    | none => none
    | some front =>
      let q : CircularQueue := { m.mem with front := front, size := m.mem.size - 1 }
      some (true, { mem := q, disk := some (saveState q) })

/-- The loop shared by `listChats` and `getJsonStatus`: the records
`queue[(front + i) % capacity]` for `i`, `i + 1`, ..., `n` of them. -/
def chatsFrom (q : CircularQueue) : Nat → Nat → Option (List ChatRequest)
  | _, 0 => some []
  | i, n + 1 =>
    match cRem (q.front + (i : Int)) q.capacity with
    | none => none
    | some index =>
      match slotAt q.queue index, chatsFrom q (i + 1) n with
      | some chat, some rest => some (chat :: rest)
      | _, _ => none

/-- The records visited by `for (int i = 0; i < size; i++)`, oldest first. -/
def activeChats (q : CircularQueue) : Option (List ChatRequest) :=
  chatsFrom q 0 q.size.toNat

/-! ## Calls in sequence -/

/-- A call of one of the two mutating methods. -/
inductive Op where
  | add (customerName now : String) : Op
  | finish : Op

/-- A machine together with what its calls so far reported: the flags returned,
the records stored by the successful adds, and the agent subscripts they used. -/
structure Run where
  machine : Machine
  results : List Bool
  created : List ChatRequest
  used : List Int

/-- One call: `addChat` or `endChat`; a successful add is followed by reading
back `queue[rear]`, the record it stored. -/
def perform (r : Run) : Op → Option Run
  | Op.add customerName now =>
    match addChat r.machine customerName now with
    | none => none
    | some (false, m) =>
      some { machine := m, results := r.results ++ [false], created := r.created,
             used := r.used }
    | some (true, m) =>
      match slotAt m.mem.queue m.mem.rear with
      | none => none
      | some chat =>
        some { machine := m, results := r.results ++ [true],
               created := r.created ++ [chat],
               used := r.used ++ [r.machine.mem.currentAgentIndex] }
  | Op.finish =>
    match endChat r.machine with
    | none => none
    | some (ok, m) =>
      some { machine := m, results := r.results ++ [ok], created := r.created,
             used := r.used }

/-- A sequence of calls, first to last. -/
def exec (r : Run) : List Op → Option Run
  | [] => some r
  | op :: ops =>
    match perform r op with
    | none => none
    | some r' => exec r' ops

/-- The queue left by the constructor when the snapshot it loads overrides
nothing but the agent list. -/
def emptyQueue (cap : Int) (agents : List String) : CircularQueue :=
  { freshQueue cap with agents := agents }

/-- The start of a run: a queue just constructed, nothing called yet. -/
def start (q : CircularQueue) (disk : Option Json) : Run :=
  { machine := { mem := q, disk := disk }, results := [], created := [], used := [] }

/-- The representation invariant of a queue of capacity `C` with agent list `A`. -/
structure Inv (C : Int) (A : List String) (q : CircularQueue) : Prop where
  cap : q.capacity = C
  len : (q.queue.length : Int) = C
  front_lo : 0 ≤ q.front
  front_hi : q.front < C
  size_lo : 0 ≤ q.size
  size_hi : q.size ≤ C
  rear_lo : -1 ≤ q.rear
  rear_hi : q.rear < C
  cursor : (q.rear + 1) % C = (q.front + q.size) % C
  agents : q.agents = A
  cai_lo : 0 ≤ q.currentAgentIndex
  cai_hi : q.currentAgentIndex < A.length

/-- The values of the C++ type `int`. -/
def IsInt32 (n : Int) : Prop := -2147483648 ≤ n ∧ n < 2147483648

instance (n : Int) : Decidable (IsInt32 n) := by
  unfold IsInt32
  exact inferInstance

/-- A queue object as C++ types it: every `int` field holds an `int`. -/
def WellTyped (q : CircularQueue) : Prop :=
  IsInt32 q.front ∧ IsInt32 q.rear ∧ IsInt32 q.size ∧ IsInt32 q.capacity ∧
  IsInt32 q.currentAgentIndex ∧ IsInt32 q.nextId ∧ ∀ chat ∈ q.queue, IsInt32 chat.id

instance (q : CircularQueue) : Decidable (WellTyped q) := by
  unfold WellTyped
  exact inferInstance

/-- The record in the `j`-th slot counted circularly from `front`. -/
def ring (q : CircularQueue) (j : Nat) : ChatRequest :=
  q.queue.getD ((q.front + (j : Int)) % q.capacity).toNat ChatRequest.empty

/-- The invariant of a run from the empty queue of capacity `C` with agents `A`:
the queue is well formed, the active chats are the most recent records
created, and the `k`-th successful add used agent `k mod |A|` and the `k`-th id. -/
structure RunInv (C : Int) (A : List String) (r : Run) : Prop where
  inv : Inv C A r.machine.mem
  hist : ∃ pre act, r.created = pre ++ act ∧ activeChats r.machine.mem = some act
  used : r.used = (List.range r.created.length).map (fun (k : Nat) => ((k % A.length : Nat) : Int))
  names : r.created.map (fun chat => chat.agentName)
    = (List.range r.created.length).map (fun (k : Nat) => A.getD (k % A.length) "")
  ids : r.created.map (fun chat => chat.id)
    = (List.range r.created.length).map (fun (k : Nat) => wrapInt ((k : Int) + 1))
  cai : r.machine.mem.currentAgentIndex = ((r.created.length % A.length : Nat) : Int)
  nid : r.machine.mem.nextId = wrapInt ((r.created.length : Int) + 1)
  typed : ∀ chat ∈ r.machine.mem.queue, IsInt32 chat.id

/-- A state the snapshot `{"rear": -5}` loads into a capacity-10 queue. -/
def rearBelowRange : Machine :=
  { mem := { freshQueue 10 with rear := -5 }, disk := none }

/-- A capacity-10 queue whose id counter stands at the largest `int`. -/
def lastId : Machine :=
  { mem := { freshQueue 10 with nextId := 2147483647 }, disk := none }

/-- A state the snapshot `{"front": -5, "size": 1}` loads into a capacity-10
queue. -/
def frontBelowRange : Machine :=
  { mem := { freshQueue 10 with front := -5, size := 1 }, disk := none }

/-- A capacity-3 queue after four adds and three ends: one active chat, in slot 0. -/
def sampleQueue : CircularQueue :=
  { queue := [ChatRequest.create "d" "Agent Diana" 4 "2024-01-01 10:03:00",
              ChatRequest.create "b" "Agent Bob" 2 "2024-01-01 10:01:00",
              ChatRequest.create "c" "Agent Charlie" 3 "2024-01-01 10:02:00"],
    front := 0, rear := 0, size := 1, capacity := 3, agents := defaultAgents,
    currentAgentIndex := 4, nextId := 5 }

/-! ## Output, invocations and snapshot steps -/

/-- The call of `addChat` or `endChat` that an `Op` stands for. -/
def call (m : Machine) : Op → Option (Bool × Machine)
  | Op.add customerName now => addChat m customerName now
  | Op.finish => endChat m

/-- The program run once per command, as `main` does for `add` and `end`: each
invocation constructs `CircularQueue chatQueue(10)` from the state file the
previous one left and makes the one call; only the file survives the process.
The flags returned so far are collected; the machine is the one the last
invocation exited with. -/
def session (m : Machine) (results : List Bool) : List Op → Option (List Bool × Machine)
  | [] => some (results, m)
  | op :: ops =>
    match construct 10 m.disk with
    | none => none
    | some q =>
      match call { mem := q, disk := m.disk } op with
      | none => none
      | some (ok, m') => session m' (results ++ [ok]) ops

/-- The stream insertion `<<` of an `int`: decimal digits, a minus sign first
when negative. -/
def showInt (n : Int) : String := toString n

/-- The line `listChats` prints for one chat. -/
def chatLine (chat : ChatRequest) : String :=
  showInt chat.id ++ " | " ++ chat.customerName ++ " | " ++ chat.agentName ++ " | "
    ++ chat.timestamp

/-- Method `listChats`: the lines printed, and the machine afterwards. -/
def listChats (m : Machine) : Option (List String × Machine) :=
  if isEmpty m.mem then some (["No active chats."], m)
  else
    match activeChats m.mem with
    | none => none
    | some chats =>
      some (["Active Chats:", "ID | Customer | Agent | Timestamp",
             "---|----------|-------|----------"] ++ chats.map chatLine, m)

/-- The object `getJsonStatus` writes for one chat. -/
def chatEntry (chat : ChatRequest) : String :=
  "\x7b" ++ "\"id\":" ++ showInt chat.id ++ ","
    ++ "\"customerName\":\"" ++ chat.customerName ++ "\","
    ++ "\"agentName\":\"" ++ chat.agentName ++ "\","
    ++ "\"timestamp\":\"" ++ chat.timestamp ++ "\"" ++ "\x7d"

/-- The quoted name `getJsonStatus` writes for one agent. -/
def agentEntry (agent : String) : String := "\"" ++ agent ++ "\""

/-- The two loops of `getJsonStatus` write their entries with
`if (i > 0) json << ","` in front; `first` tells whether `i` is 0. -/
def emitAll (first : Bool) : List String → String
  | [] => ""
  | entry :: rest => (if first then "" else ",") ++ entry ++ emitAll false rest

/-- The text `getJsonStatus` builds from the records its first loop visits. -/
def statusText (q : CircularQueue) (chats : List ChatRequest) : String :=
  "\x7b" ++ "\"totalChats\":" ++ showInt q.size ++ ","
    ++ "\"capacity\":" ++ showInt q.capacity ++ ","
    ++ "\"chats\":[" ++ emitAll true (chats.map chatEntry) ++ "],"
    ++ "\"agents\":[" ++ emitAll true (q.agents.map agentEntry) ++ "]" ++ "\x7d"

/-- Method `getJsonStatus`: the string returned, and the machine afterwards. -/
def getJsonStatus (m : Machine) : Option (String × Machine) :=
  match activeChats m.mem with
  | none => none
  | some chats => some (statusText m.mem chats, m)

/-- A call of one of the four public methods `main` dispatches to. -/
inductive Command where
  | add (customerName now : String) : Command
  | finish : Command
  | list : Command
  | json : Command

/-- One method call; what it returns or prints is dropped. -/
def runCommand (m : Machine) : Command → Option Machine
  | Command.add customerName now => (addChat m customerName now).map Prod.snd
  | Command.finish => (endChat m).map Prod.snd
  | Command.list => (listChats m).map Prod.snd
  | Command.json => (getJsonStatus m).map Prod.snd

/-- A sequence of method calls, first to last. -/
def runCommands (m : Machine) : List Command → Option Machine
  | [] => some m
  | c :: cs =>
    match runCommand m c with
    | none => none
    | some m' => runCommands m' cs

/-- A step on a queue object and its state file: one of the two mutating
calls, a `saveState`, or a `loadState` of what the file holds. -/
inductive Step where
  | add (customerName now : String) : Step
  | finish : Step
  | save : Step
  | load : Step

/-- One step. -/
def doStep (m : Machine) : Step → Option Machine
  | Step.add customerName now => (addChat m customerName now).map Prod.snd
  | Step.finish => (endChat m).map Prod.snd
  | Step.save => some { mem := m.mem, disk := some (saveState m.mem) }
  | Step.load => (loadState m.mem m.disk).map (fun q => { mem := q, disk := m.disk })

/-- A sequence of steps, first to last. -/
def runSteps (m : Machine) : List Step → Option Machine
  | [] => some m
  | s :: ss =>
    match doStep m s with
    | none => none
    | some m' => runSteps m' ss

/-! ## Snapshots as the file format types them -/

/-- Modelled from the spec: a member the file format types `int` is absent or a
number in the range of `int`. -/
def intMember (ms : List (String × Json)) (key : String) : Bool :=
  match findMember key ms with
  | none => true
  | some (Json.num n) => decide (IsInt32 n)
  | some _ => false

/-- Modelled from the spec: a member the file format types as text is absent or
a string. -/
def stringMember (ms : List (String × Json)) (key : String) : Bool :=
  match findMember key ms with
  | none => true
  | some (Json.str _) => true
  | some _ => false

/-- Modelled from the spec: a JSON string. -/
def isStr : Json → Bool
  | Json.str _ => true
  | _ => false

/-- Modelled from the spec: a slot object of the file format, with
`customerName`, `agentName`, `timestamp` as text and `id` as `int`, each of
them possibly absent. -/
def slotTyped : Json → Bool
  | Json.obj fs =>
    stringMember fs "customerName" && stringMember fs "agentName" &&
      stringMember fs "timestamp" && intMember fs "id"
  | _ => false

/-- Modelled from the spec: the member `agents`, absent or a list of strings. -/
def agentsMember (ms : List (String × Json)) : Bool :=
  match findMember "agents" ms with
  | none => true
  | some (Json.arr xs) => xs.all isStr
  | some _ => false

/-- Modelled from the spec: the member `queue`, absent or a list of slot objects. -/
def queueMember (ms : List (String × Json)) : Bool :=
  match findMember "queue" ms with
  | none => true
  | some (Json.arr xs) => xs.all slotTyped
  | some _ => false

/-- Modelled from the spec: a snapshot as the file format types it, a JSON
object whose members, where present, have the types the format gives them. -/
def snapshotTyped : Json → Bool
  | Json.obj ms =>
    intMember ms "front" && intMember ms "rear" && intMember ms "size" &&
      intMember ms "capacity" && intMember ms "currentAgentIndex" &&
      intMember ms "nextId" && agentsMember ms && queueMember ms
  | _ => false

/-- The snapshot `{"capacity": 10, "size": 1}`: one chat counted, no slot stored. -/
def paddedSnapshot : Json :=
  Json.obj [("capacity", Json.num 10), ("size", Json.num 1)]

/-- The snapshot `{"capacity": 10, "queue": [], "size": 1}`: one chat counted, an
empty slot list stored. -/
def paddedSnapshotEmptyList : Json :=
  Json.obj [("capacity", Json.num 10), ("queue", Json.arr []), ("size", Json.num 1)]

/-- The snapshot `{"agents": ["Zed"], "capacity": 3}`. -/
def overridingSnapshot : List (String × Json) :=
  [("agents", Json.arr [Json.str "Zed"]), ("capacity", Json.num 3)]

/-- A snapshot that stores two slots, the second without `customerName` and
`id`, under capacity 4. -/
def shortSnapshot : List (String × Json) :=
  [("capacity", Json.num 4),
   ("queue", Json.arr
      [Json.obj [("agentName", Json.str "Agent Alice"), ("customerName", Json.str "A"),
                 ("id", Json.num 1), ("timestamp", Json.str "t1")],
       Json.obj [("agentName", Json.str "Agent Bob"), ("timestamp", Json.str "t2")]]),
   ("size", Json.num 2)]

/-- Modelled from the spec: the value of a hexadecimal digit of a JSON `\u`
escape. -/
def hexDigit (c : Char) : Option Nat :=
  if 48 ≤ c.toNat ∧ c.toNat ≤ 57 then some (c.toNat - 48)
  else if 65 ≤ c.toNat ∧ c.toNat ≤ 70 then some (c.toNat - 55)
  else if 97 ≤ c.toNat ∧ c.toNat ≤ 102 then some (c.toNat - 87)
  else none

/-- Modelled from the spec: the character a JSON escape letter stands for. -/
def unescape (c : Char) : Option Char :=
  if c.toNat = 34 then some (Char.ofNat 34)
  else if c.toNat = 92 then some (Char.ofNat 92)
  else if c.toNat = 47 then some (Char.ofNat 47)
  else if c.toNat = 98 then some (Char.ofNat 8)
  else if c.toNat = 102 then some (Char.ofNat 12)
  else if c.toNat = 110 then some (Char.ofNat 10)
  else if c.toNat = 114 then some (Char.ofNat 13)
  else if c.toNat = 116 then some (Char.ofNat 9)
  else none

/-- Modelled from the spec: reading a JSON string value, as the JSON format
that the status output is said to have defines it. The input starts right after
the opening quote; the result is the text the literal decodes to and the input
left after its closing quote, or `none` for a raw control character, a bad
escape or a missing closing quote. -/
def readJsonString : List Char → Option (List Char × List Char)
  | [] => none
  | c :: rest =>
    if c.toNat = 34 then some ([], rest)
    else if c.toNat = 92 then
      match rest with
      | [] => none
      | e :: rest' =>
        if e.toNat = 117 then
          match rest' with
          | a :: b :: c' :: d :: rest'' =>
            match hexDigit a, hexDigit b, hexDigit c', hexDigit d, readJsonString rest'' with
            | some x, some y, some z, some w, some (text, left) =>
              some (Char.ofNat (((x * 16 + y) * 16 + z) * 16 + w) :: text, left)
            | _, _, _, _, _ => none
          | _ => none
        else
          match unescape e, readJsonString rest' with
          | some u, some (text, left) => some (u :: text, left)
          | _, _ => none
    else if c.toNat < 32 then none
    else
      match readJsonString rest with
      | some (text, left) => some (c :: text, left)
      | none => none

/-- The customer name `a"b`, with a double quote in it. -/
def quotedName : String := "a\"b"

/-- The queue states the steps of saving and loading keep to, for a constructor
capacity `C`: well formed and typed when `C ≥ 1`, the empty slot array when
`C = 0`. -/
def Shaped (C : Int) (q : CircularQueue) : Prop :=
  (1 ≤ C ∧ Inv C defaultAgents q ∧ WellTyped q) ∨ (C = 0 ∧ q = freshQueue 0)

/-- The invariant of a machine under the steps: the queue is shaped, and the
file, when there is one, holds the snapshot of a shaped queue. -/
def StepInv (C : Int) (m : Machine) : Prop :=
  Shaped C m.mem ∧ ∀ j, m.disk = some j → ∃ q, j = saveState q ∧ Shaped C q

/-! ## Basic facts -/

theorem cRem_of_nonneg {a b : Int} (ha : 0 ≤ a) (hb : 0 < b) :
    cRem a b = some (a % b) := by
  unfold cRem
  rw [if_neg (by omega), Int.tmod_eq_emod ha (by omega)]

theorem slotAt_of_lt {α : Type} (v : List α) (i : Nat) (h : i < v.length) :
    slotAt v (i : Int) = some (v.get ⟨i, h⟩) := by
  unfold slotAt
  simp [List.getElem?_eq_getElem h]

theorem slotAt_eq_getElem? {α : Type} (v : List α) {i : Int} (h : 0 ≤ i) :
    slotAt v i = v[i.toNat]? := by
  unfold slotAt
  rw [if_pos h]

theorem slotSet_of_lt {α : Type} (v : List α) {i : Int} (x : α) (h0 : 0 ≤ i)
    (h : i < v.length) : slotSet v i x = some (v.set i.toNat x) := by
  unfold slotSet
  rw [if_pos]
  exact ⟨h0, by omega⟩

theorem getStrings_map_str (l : List String) : getStrings (l.map Json.str) = some l := by
  induction l with
  | nil => rfl
  | cons s l ih => simp only [List.map_cons, getStrings, Json.getString, ih]

/-- Without a state file the constructor leaves the initial empty queue. -/
theorem construct_no_file (cap : Int) (h : 0 ≤ cap) :
    construct cap none = some (freshQueue cap) := by
  unfold construct
  rw [if_neg (by omega)]
  rfl

/-- With a snapshot that holds an agent list only, the constructor leaves the
empty queue with these agents. -/
theorem construct_agents_only (cap : Int) (A : List String) (h : 0 ≤ cap) :
    construct cap (some (Json.obj [("agents", Json.arr (A.map Json.str))]))
      = some (emptyQueue cap A) := by
  unfold construct
  rw [if_neg (by omega)]
  have hq : ensureSize [] cap = List.replicate cap.toNat ChatRequest.empty := by
    unfold ensureSize
    by_cases hc : (0 : Int) < cap
    · simp [hc]
    · have h0 : cap = 0 := by omega
      subst h0
      simp
  simp [loadState, Json.valueInt, Json.valueStringList, Json.itemsAt, findMember,
    Json.getStringList, getStrings_map_str, loadSlots, hq, emptyQueue, freshQueue]

/-- The exact effect of a successful `addChat`. -/
theorem addChat_eq (m : Machine) (c t agent : String)
    (hfull : m.mem.size ≠ m.mem.capacity) (hcap : 1 ≤ m.mem.capacity)
    (hrear : -1 ≤ m.mem.rear) (hlen : m.mem.capacity ≤ m.mem.queue.length)
    (hcai : 0 ≤ m.mem.currentAgentIndex)
    (hagent : m.mem.agents[m.mem.currentAgentIndex.toNat]? = some agent) :
    addChat m c t = some (true,
      { mem :=
          { queue := m.mem.queue.set ((m.mem.rear + 1) % m.mem.capacity).toNat
              (ChatRequest.create c agent m.mem.nextId t),
            front := m.mem.front, rear := (m.mem.rear + 1) % m.mem.capacity,
            size := m.mem.size + 1, capacity := m.mem.capacity,
            agents := m.mem.agents,
            currentAgentIndex := (m.mem.currentAgentIndex + 1) % m.mem.agents.length,
            nextId := wrapInt (m.mem.nextId + 1) },
        disk := some (saveState
          { queue := m.mem.queue.set ((m.mem.rear + 1) % m.mem.capacity).toNat
              (ChatRequest.create c agent m.mem.nextId t),
            front := m.mem.front, rear := (m.mem.rear + 1) % m.mem.capacity,
            size := m.mem.size + 1, capacity := m.mem.capacity,
            agents := m.mem.agents,
            currentAgentIndex := (m.mem.currentAgentIndex + 1) % m.mem.agents.length,
            nextId := wrapInt (m.mem.nextId + 1) }) }) := by
  have hlt : m.mem.currentAgentIndex.toNat < m.mem.agents.length := by
    by_contra hge
    rw [List.getElem?_eq_none (by omega)] at hagent
    exact Option.noConfusion hagent
  have h1 : (0 : Int) ≤ (m.mem.rear + 1) % m.mem.capacity :=
    Int.emod_nonneg _ (by omega)
  have h2 : (m.mem.rear + 1) % m.mem.capacity < m.mem.capacity :=
    Int.emod_lt_of_pos _ (by omega)
  unfold addChat isFull
  rw [if_neg (by simpa using hfull)]
  rw [cRem_of_nonneg (by omega) (by omega)]
  simp only []
  rw [slotAt_eq_getElem? _ hcai, hagent]
  simp only []
  rw [slotSet_of_lt _ _ h1 (by omega)]
  simp only []
  rw [cRem_of_nonneg (by omega) (by omega)]

/-- The exact effect of a successful `endChat`. -/
theorem endChat_eq (m : Machine) (hempty : m.mem.size ≠ 0) (hcap : 1 ≤ m.mem.capacity)
    (hfront : 0 ≤ m.mem.front) :
    endChat m = some (true,
      { mem := { m.mem with front := (m.mem.front + 1) % m.mem.capacity,
                            size := m.mem.size - 1 },
        disk := some (saveState
          { m.mem with front := (m.mem.front + 1) % m.mem.capacity,
                       size := m.mem.size - 1 }) }) := by
  unfold endChat isEmpty
  rw [if_neg (by simpa using hempty)]
  rw [cRem_of_nonneg (by omega) (by omega)]

/-! ## The representation invariant -/

theorem inv_emptyQueue (C : Int) (A : List String) (hC : 1 ≤ C) (hA : A ≠ []) :
    Inv C A (emptyQueue C A) := by
  have hlen : 0 < A.length := List.length_pos.mpr hA
  refine ⟨rfl, ?_, by simp [emptyQueue, freshQueue], by simpa [emptyQueue, freshQueue] using hC,
    by simp [emptyQueue, freshQueue], by simp [emptyQueue, freshQueue]; omega,
    by simp [emptyQueue, freshQueue], by simp [emptyQueue, freshQueue]; omega, ?_, rfl,
    by simp [emptyQueue, freshQueue], by simpa [emptyQueue, freshQueue] using hlen⟩
  · simp [emptyQueue, freshQueue]; omega
  · simp [emptyQueue, freshQueue]

theorem inv_agent {C : Int} {A : List String} {q : CircularQueue} (h : Inv C A q) :
    ∃ agent, q.agents[q.currentAgentIndex.toNat]? = some agent := by
  have h1 := h.cai_lo
  have h2 := h.cai_hi
  have h3 : q.currentAgentIndex.toNat < q.agents.length := by rw [h.agents]; omega
  exact ⟨_, List.getElem?_eq_getElem h3⟩

/-- A successful `addChat` keeps the invariant. -/
theorem inv_addChat {C : Int} {A : List String} {m m' : Machine} {c t : String}
    (h : Inv C A m.mem) (hC : 1 ≤ C) (hadd : addChat m c t = some (true, m')) :
    Inv C A m'.mem := by
  obtain ⟨agent, hagent⟩ := inv_agent h
  have hne : m.mem.size ≠ m.mem.capacity := by
    intro heq
    simp [addChat, isFull, heq] at hadd
  have hlt : m.mem.size < C := by
    have := h.size_hi; have := h.cap; omega
  have hA : (0 : Int) < A.length := by have := h.cai_lo; have := h.cai_hi; omega
  rw [addChat_eq m c t agent hne (by rw [h.cap]; exact hC) h.rear_lo
    (by rw [h.cap, h.len]) h.cai_lo hagent] at hadd
  simp only [Option.some.injEq, Prod.mk.injEq, true_and] at hadd
  subst hadd
  refine ⟨h.cap, ?_, h.front_lo, h.front_hi, ?_, ?_, ?_, ?_, ?_, h.agents, ?_, ?_⟩
  · simpa using h.len
  · have := h.size_lo; show 0 ≤ m.mem.size + 1; omega
  · show m.mem.size + 1 ≤ C; omega
  · show -1 ≤ (m.mem.rear + 1) % m.mem.capacity
    have := Int.emod_nonneg (m.mem.rear + 1) (b := m.mem.capacity) (by rw [h.cap]; omega)
    omega
  · show (m.mem.rear + 1) % m.mem.capacity < C
    rw [h.cap]; exact Int.emod_lt_of_pos _ (by omega)
  · show ((m.mem.rear + 1) % m.mem.capacity + 1) % C = (m.mem.front + (m.mem.size + 1)) % C
    rw [h.cap, h.cursor, Int.emod_add_emod, Int.add_assoc]
  · show 0 ≤ (m.mem.currentAgentIndex + 1) % (m.mem.agents.length : Int)
    exact Int.emod_nonneg _ (by rw [h.agents]; omega)
  · show (m.mem.currentAgentIndex + 1) % (m.mem.agents.length : Int) < A.length
    rw [h.agents]; exact Int.emod_lt_of_pos _ hA

/-- A successful `endChat` keeps the invariant. -/
theorem inv_endChat {C : Int} {A : List String} {m m' : Machine}
    (h : Inv C A m.mem) (hC : 1 ≤ C) (hend : endChat m = some (true, m')) :
    Inv C A m'.mem := by
  have hne : m.mem.size ≠ 0 := by
    intro heq
    simp [endChat, isEmpty, heq] at hend
  rw [endChat_eq m hne (by rw [h.cap]; exact hC) h.front_lo] at hend
  simp only [Option.some.injEq, Prod.mk.injEq, true_and] at hend
  subst hend
  refine ⟨h.cap, h.len, ?_, ?_, ?_, ?_, h.rear_lo, h.rear_hi, ?_, h.agents, h.cai_lo, h.cai_hi⟩
  · show 0 ≤ (m.mem.front + 1) % m.mem.capacity
    exact Int.emod_nonneg _ (by rw [h.cap]; omega)
  · show (m.mem.front + 1) % m.mem.capacity < C
    rw [h.cap]; exact Int.emod_lt_of_pos _ (by omega)
  · have := h.size_lo; show 0 ≤ m.mem.size - 1; omega
  · have := h.size_hi; show m.mem.size - 1 ≤ C; omega
  · show (m.mem.rear + 1) % C = ((m.mem.front + 1) % m.mem.capacity + (m.mem.size - 1)) % C
    rw [h.cap, h.cursor, Int.emod_add_emod]
    congr 1; omega

/-- A call that returns false changes nothing. -/
theorem addChat_false {m m' : Machine} {c t : String}
    (hadd : addChat m c t = some (false, m')) : m' = m := by
  unfold addChat at hadd
  split at hadd
  · simp only [Option.some.injEq, Prod.mk.injEq, true_and] at hadd
    exact hadd.symm
  · split at hadd
    · exact Option.noConfusion hadd
    · split at hadd
      · exact Option.noConfusion hadd
      · split at hadd
        · exact Option.noConfusion hadd
        · split at hadd
          · exact Option.noConfusion hadd
          · simp at hadd

theorem endChat_false {m m' : Machine} (hend : endChat m = some (false, m')) : m' = m := by
  unfold endChat at hend
  split at hend
  · simp only [Option.some.injEq, Prod.mk.injEq, true_and] at hend
    exact hend.symm
  · split at hend
    · exact Option.noConfusion hend
    · simp at hend

/-- Under the invariant `addChat` always returns. -/
theorem addChat_total {C : Int} {A : List String} (m : Machine) (c t : String)
    (h : Inv C A m.mem) (hC : 1 ≤ C) : ∃ ok m', addChat m c t = some (ok, m') := by
  by_cases hfull : m.mem.size = m.mem.capacity
  · exact ⟨false, m, by simp [addChat, isFull, hfull]⟩
  · obtain ⟨agent, hagent⟩ := inv_agent h
    exact ⟨true, _, addChat_eq m c t agent hfull (by rw [h.cap]; exact hC) h.rear_lo
      (by rw [h.cap, h.len]) h.cai_lo hagent⟩

/-- Under the invariant `endChat` always returns. -/
theorem endChat_total {C : Int} {A : List String} (m : Machine)
    (h : Inv C A m.mem) (hC : 1 ≤ C) : ∃ ok m', endChat m = some (ok, m') := by
  by_cases hempty : m.mem.size = 0
  · exact ⟨false, m, by simp [endChat, isEmpty, hempty]⟩
  · exact ⟨true, _, endChat_eq m hempty (by rw [h.cap]; exact hC) h.front_lo⟩

/-! ## The loop over the active chats -/

/-- With the cursors in range the loop visits exactly the ring slots. -/
theorem chatsFrom_eq (q : CircularQueue) (hf : 0 ≤ q.front) (hc : 1 ≤ q.capacity)
    (hl : q.capacity ≤ q.queue.length) (i n : Nat) :
    chatsFrom q i n = some ((List.range' i n).map (ring q)) := by
  induction n generalizing i with
  | zero => rfl
  | succ n ih =>
    have h1 : (0 : Int) ≤ (q.front + (i : Int)) % q.capacity :=
      Int.emod_nonneg _ (by omega)
    have h2 : (q.front + (i : Int)) % q.capacity < q.capacity :=
      Int.emod_lt_of_pos _ (by omega)
    have h3 : ((q.front + (i : Int)) % q.capacity).toNat < q.queue.length := by omega
    unfold chatsFrom
    rw [cRem_of_nonneg (by omega) (by omega)]
    simp only []
    rw [slotAt_eq_getElem? _ h1, ih (i + 1), List.getElem?_eq_getElem h3]
    simp only [List.range', List.map_cons, Option.some.injEq, List.cons.injEq, and_true]
    unfold ring
    rw [List.getD_eq_getElem _ _ h3]

theorem activeChats_eq {C : Int} {A : List String} {q : CircularQueue} (h : Inv C A q)
    (hC : 1 ≤ C) : activeChats q = some ((List.range' 0 q.size.toNat).map (ring q)) := by
  unfold activeChats
  exact chatsFrom_eq q h.front_lo (by rw [h.cap]; exact hC) (by rw [h.cap, h.len]) 0 _

/-- After a successful `endChat` the ring is the old ring shifted by one. -/
theorem ring_endChat (q : CircularQueue) (s : Int) (j : Nat) :
    ring { q with front := (q.front + 1) % q.capacity, size := s } j = ring q (j + 1) := by
  unfold ring
  simp only [Int.emod_add_emod]
  congr 3
  push_cast
  omega

/-- Two offsets below the capacity name different slots. -/
theorem ring_index_ne {C f : Int} {j n : Nat} (hj : j < n) (hn : (n : Int) < C) :
    (f + (j : Int)) % C ≠ (f + (n : Int)) % C := by
  intro heq
  have h1 : ((f + (n : Int)) - (f + (j : Int))) % C = 0 :=
    Int.emod_eq_emod_iff_emod_sub_eq_zero.mp heq.symm
  have h2 : ((f + (n : Int)) - (f + (j : Int))) % C = (n : Int) - (j : Int) := by
    rw [show (f + (n : Int)) - (f + (j : Int)) = (n : Int) - (j : Int) by omega]
    exact Int.emod_eq_of_lt (by omega) (by omega)
  omega

/-- FIFO: a successful `endChat` drops the first active chat and nothing else. -/
theorem activeChats_endChat {C : Int} {A : List String} {m : Machine} (h : Inv C A m.mem)
    (hC : 1 ≤ C) (hsize : 0 < m.mem.size) :
    ∃ m' oldest rest, endChat m = some (true, m') ∧
      activeChats m.mem = some (oldest :: rest) ∧ activeChats m'.mem = some rest := by
  have hend := endChat_eq m (by omega) (by rw [h.cap]; exact hC) h.front_lo
  have hinv := inv_endChat h hC hend
  refine ⟨_, ring m.mem 0, (List.range' 1 (m.mem.size - 1).toNat).map (ring m.mem), hend, ?_, ?_⟩
  · rw [activeChats_eq h hC]
    have hs : m.mem.size.toNat = (m.mem.size - 1).toNat + 1 := by omega
    rw [hs]
    rfl
  · rw [activeChats_eq hinv hC]
    simp only [Option.some.injEq]
    rw [List.range'_eq_map_range, List.range'_eq_map_range, List.map_map, List.map_map]
    apply List.map_congr_left
    intro j _
    simp only [Function.comp_apply, Nat.zero_add]
    rw [ring_endChat, Nat.add_comm]

/-- Enqueue: a successful `addChat` appends its record and touches nothing else. -/
theorem activeChats_addChat {C : Int} {A : List String} {m : Machine} (c t : String)
    (h : Inv C A m.mem) (hC : 1 ≤ C) (hsize : m.mem.size < m.mem.capacity) :
    ∃ m' before agent, addChat m c t = some (true, m') ∧
      slotAt m.mem.agents m.mem.currentAgentIndex = some agent ∧
      activeChats m.mem = some before ∧
      slotAt m'.mem.queue m'.mem.rear = some (ChatRequest.create c agent m.mem.nextId t) ∧
      activeChats m'.mem = some (before ++ [ChatRequest.create c agent m.mem.nextId t]) := by
  obtain ⟨agent, hagent⟩ := inv_agent h
  have hcap := h.cap
  have hadd := addChat_eq m c t agent (by omega) (by rw [h.cap]; exact hC) h.rear_lo
    (by rw [h.cap, h.len]) h.cai_lo hagent
  have hinv := inv_addChat h hC hadd
  have hs0 := h.size_lo
  have hidx0 : (0 : Int) ≤ (m.mem.rear + 1) % m.mem.capacity :=
    Int.emod_nonneg _ (by omega)
  have hidx1 : (m.mem.rear + 1) % m.mem.capacity < m.mem.capacity :=
    Int.emod_lt_of_pos _ (by omega)
  have hlen := h.len
  have hcur : (m.mem.rear + 1) % m.mem.capacity
      = (m.mem.front + (m.mem.size.toNat : Int)) % m.mem.capacity := by
    rw [h.cap, h.cursor, Int.toNat_of_nonneg hs0]
  refine ⟨_, _, agent, hadd, ?_, activeChats_eq h hC, ?_, ?_⟩
  · rw [slotAt_eq_getElem? _ h.cai_lo, hagent]
  · show slotAt (m.mem.queue.set _ _) ((m.mem.rear + 1) % m.mem.capacity) = _
    rw [slotAt_eq_getElem? _ hidx0, List.getElem?_set_self (by omega)]
  · rw [activeChats_eq hinv hC]
    show some (List.map (ring _) (List.range' 0 (m.mem.size + 1).toNat)) = _
    have hs : (m.mem.size + 1).toNat = m.mem.size.toNat + 1 := by omega
    rw [hs, List.range'_concat, List.map_append]
    simp only [Option.some.injEq, List.map_cons, List.map_nil, Nat.zero_add, Nat.one_mul]
    congr 1
    · apply List.map_congr_left
      intro j hj
      have hjlt : j < m.mem.size.toNat := by
        have := (List.mem_range'_1.mp hj).2; omega
      unfold ring
      show (m.mem.queue.set _ _).getD ((m.mem.front + (j : Int)) % m.mem.capacity).toNat _ = _
      have hne := ring_index_ne (C := m.mem.capacity) (f := m.mem.front) hjlt (by omega)
      have hj0 : (0 : Int) ≤ (m.mem.front + (j : Int)) % m.mem.capacity :=
        Int.emod_nonneg _ (by omega)
      rw [List.getD_eq_getElem?_getD, List.getD_eq_getElem?_getD,
        List.getElem?_set_ne]
      rw [hcur]
      intro hEq
      apply hne
      have := Int.emod_nonneg (m.mem.front + (m.mem.size.toNat : Int)) (b := m.mem.capacity)
        (by omega)
      omega
    · unfold ring
      show [(m.mem.queue.set _ _).getD ((m.mem.front + (m.mem.size.toNat : Int)) % m.mem.capacity).toNat _] = _
      rw [← hcur, List.getD_eq_getElem?_getD, List.getElem?_set_self (by omega)]
      rfl

/-! ## Runs keep their invariant -/

theorem wrapInt_succ (x : Int) : wrapInt (wrapInt x + 1) = wrapInt (x + 1) := by
  unfold wrapInt
  omega

theorem wrapInt_isInt32 (x : Int) : IsInt32 (wrapInt x) := by
  unfold IsInt32 wrapInt
  omega

theorem wrapInt_of_range {x : Int} (h0 : -2147483648 ≤ x) (h1 : x < 2147483648) :
    wrapInt x = x := by
  unfold wrapInt
  omega

theorem runInv_start (C : Int) (A : List String) (hC : 1 ≤ C) (hA : A ≠ [])
    (disk : Option Json) : RunInv C A (start (emptyQueue C A) disk) := by
  refine ⟨inv_emptyQueue C A hC hA, ⟨[], [], rfl, ?_⟩, ?_, ?_, ?_, ?_, ?_, ?_⟩
  · simp [start, emptyQueue, freshQueue, activeChats, chatsFrom]
  · simp [start]
  · simp [start]
  · simp [start]
  · simp [start, emptyQueue, freshQueue]
  · simp [start, emptyQueue, freshQueue, wrapInt]
  · intro chat hmem
    have hc : chat = ChatRequest.empty := by
      simp only [start, emptyQueue, freshQueue] at hmem
      exact List.eq_of_mem_replicate hmem
    rw [hc]
    decide

theorem perform_add_false {r : Run} {c t : String} {m : Machine}
    (h : addChat r.machine c t = some (false, m)) :
    perform r (Op.add c t) = some
      { machine := m, results := r.results ++ [false], created := r.created,
        used := r.used } := by
  simp only [perform, h]

theorem perform_add_true {r : Run} {c t : String} {m : Machine} {chat : ChatRequest}
    (h : addChat r.machine c t = some (true, m))
    (hs : slotAt m.mem.queue m.mem.rear = some chat) :
    perform r (Op.add c t) = some
      { machine := m, results := r.results ++ [true], created := r.created ++ [chat],
        used := r.used ++ [r.machine.mem.currentAgentIndex] } := by
  simp only [perform, h, hs]

theorem perform_finish {r : Run} {ok : Bool} {m : Machine}
    (h : endChat r.machine = some (ok, m)) :
    perform r Op.finish = some
      { machine := m, results := r.results ++ [ok], created := r.created,
        used := r.used } := by
  simp only [perform, h]

/-- Every call returns, and the run invariant holds afterwards. -/
theorem perform_inv {C : Int} {A : List String} {r : Run} (h : RunInv C A r) (hC : 1 ≤ C)
    (op : Op) : ∃ r', perform r op = some r' ∧ RunInv C A r' := by
  have hi := h.inv
  obtain ⟨pre, act, hcreated, hact⟩ := h.hist
  have hAlen : (0 : Int) < A.length := by have := hi.cai_lo; have := hi.cai_hi; omega
  cases op with
  | add c t =>
    by_cases hfull : r.machine.mem.size = r.machine.mem.capacity
    · have hadd : addChat r.machine c t = some (false, r.machine) := by
        simp [addChat, isFull, hfull]
      refine ⟨_, perform_add_false hadd, ?_⟩
      exact ⟨hi, ⟨pre, act, hcreated, hact⟩, h.used, h.names, h.ids, h.cai, h.nid, h.typed⟩
    · have hlt : r.machine.mem.size < r.machine.mem.capacity := by
        have := hi.size_hi; have := hi.cap; omega
      obtain ⟨agent, hagent⟩ := inv_agent hi
      have hadd := addChat_eq r.machine c t agent hfull (by rw [hi.cap]; exact hC) hi.rear_lo
        (by rw [hi.cap, hi.len]) hi.cai_lo hagent
      obtain ⟨m', before, agent', hadd', hagent', hbefore, hslot, hafter⟩ :=
        activeChats_addChat c t hi hC hlt
      rw [slotAt_eq_getElem? _ hi.cai_lo, hagent] at hagent'
      have hag : agent' = agent := (Option.some.inj hagent').symm
      subst hag
      have hinv' := inv_addChat hi hC hadd'
      have hm' := hadd.symm.trans hadd'
      simp only [Option.some.injEq, Prod.mk.injEq, true_and] at hm'
      have hbe : before = act := by
        rw [hact] at hbefore; exact (Option.some.inj hbefore).symm
      subst hbe
      have hcaiN : r.machine.mem.currentAgentIndex.toNat = r.created.length % A.length := by
        rw [h.cai]; exact Int.toNat_ofNat _
      refine ⟨_, perform_add_true hadd' hslot, ?_⟩
      refine ⟨hinv', ⟨pre, before ++ [_], ?_, hafter⟩, ?_, ?_, ?_, ?_, ?_, ?_⟩
      · show r.created ++ [_] = pre ++ (before ++ [_])
        rw [hcreated, List.append_assoc]
      · show r.used ++ [r.machine.mem.currentAgentIndex] = _
        simp only [List.length_append, List.length_singleton, List.range_succ, List.map_append,
          List.map_cons, List.map_nil]
        rw [h.used, h.cai]
      · show List.map _ (r.created ++ [_]) = _
        simp only [List.length_append, List.length_singleton, List.range_succ, List.map_append,
          List.map_cons, List.map_nil]
        rw [h.names]
        congr 2
        show agent' = _
        rw [hi.agents, hcaiN] at hagent
        rw [List.getD_eq_getElem?_getD, hagent]
        rfl
      · show List.map _ (r.created ++ [_]) = _
        simp only [List.length_append, List.length_singleton, List.range_succ, List.map_append,
          List.map_cons, List.map_nil]
        rw [h.ids]
        simp only [ChatRequest.create]
        rw [h.nid]
      · show m'.mem.currentAgentIndex = _
        rw [← hm']
        show (r.machine.mem.currentAgentIndex + 1) % (r.machine.mem.agents.length : Int) = _
        rw [hi.agents, h.cai]
        simp only [List.length_append, List.length_singleton]
        push_cast
        rw [Int.emod_add_emod]
      · show m'.mem.nextId = _
        rw [← hm']
        show wrapInt (r.machine.mem.nextId + 1) = _
        rw [h.nid, wrapInt_succ]
        simp only [List.length_append, List.length_singleton]
        push_cast
        rfl
      · show ∀ chat ∈ m'.mem.queue, IsInt32 chat.id
        rw [← hm']
        intro chat hmem
        rcases List.mem_or_eq_of_mem_set hmem with hold | hnew
        · exact h.typed chat hold
        · rw [hnew, h.nid]
          exact wrapInt_isInt32 _
  | finish =>
    by_cases hempty : r.machine.mem.size = 0
    · have hend : endChat r.machine = some (false, r.machine) := by
        simp [endChat, isEmpty, hempty]
      refine ⟨_, perform_finish hend, ?_⟩
      exact ⟨hi, ⟨pre, act, hcreated, hact⟩, h.used, h.names, h.ids, h.cai, h.nid, h.typed⟩
    · have hpos : 0 < r.machine.mem.size := by have := hi.size_lo; omega
      have hend := endChat_eq r.machine hempty (by rw [hi.cap]; exact hC) hi.front_lo
      obtain ⟨m', oldest, rest, hend', hbefore, hafter⟩ := activeChats_endChat hi hC hpos
      have hinv' := inv_endChat hi hC hend'
      have hm' := hend.symm.trans hend'
      simp only [Option.some.injEq, Prod.mk.injEq, true_and] at hm'
      have hbe : oldest :: rest = act := by
        rw [hact] at hbefore; exact (Option.some.inj hbefore).symm
      refine ⟨_, perform_finish hend', ?_⟩
      refine ⟨hinv', ⟨pre ++ [oldest], rest, ?_, hafter⟩, h.used, h.names, h.ids, ?_, ?_, ?_⟩
      · show r.created = _
        rw [hcreated, ← hbe]; simp
      · show m'.mem.currentAgentIndex = _
        rw [← hm']; exact h.cai
      · show m'.mem.nextId = _
        rw [← hm']; exact h.nid
      · show ∀ chat ∈ m'.mem.queue, IsInt32 chat.id
        rw [← hm']; exact h.typed

/-- Every sequence of calls returns, and the run invariant holds afterwards. -/
theorem exec_inv {C : Int} {A : List String} (hC : 1 ≤ C) (ops : List Op) :
    ∀ r, RunInv C A r → ∃ r', exec r ops = some r' ∧ RunInv C A r' := by
  induction ops with
  | nil => intro r h; exact ⟨r, rfl, h⟩
  | cons op ops ih =>
    intro r h
    obtain ⟨r1, h1, hinv1⟩ := perform_inv h hC op
    obtain ⟨r2, h2, hinv2⟩ := ih r1 hinv1
    exact ⟨r2, by simp only [exec, h1, h2], hinv2⟩

theorem emptyQueue_default (C : Int) : emptyQueue C defaultAgents = freshQueue C := rfl

/-! ## The claims -/

/-- C1 (FIFO dequeue). From the initial empty queue of capacity `C ≥ 1` every
sequence of `addChat`/`endChat` calls returns; in the state it reaches, if
`size > 0` then `endChat` returns true and the active chats afterwards are the
active chats before with exactly the first (oldest) one removed. -/
theorem C1_fifo_dequeue (C : Int) (hC : 1 ≤ C) (ops : List Op) :
    ∃ r, exec (start (freshQueue C) none) ops = some r ∧
      (0 < r.machine.mem.size →
        ∃ m' oldest rest, endChat r.machine = some (true, m') ∧
          activeChats r.machine.mem = some (oldest :: rest) ∧
          activeChats m'.mem = some rest) := by
  obtain ⟨r, hr, hinv⟩ := exec_inv hC ops _
    (runInv_start C defaultAgents hC (by decide) none)
  exact ⟨r, hr, fun hsize => activeChats_endChat hinv.inv hC hsize⟩

/-- C1 at capacity 10 after `add A`, `add B`: the queue is not empty, and
`endChat` removes the oldest chat only. -/
theorem C1_fifo_dequeue_witness :
    (1 : Int) ≤ 10 ∧
    ∃ r, exec (start (freshQueue 10) none) [Op.add "A" "t1", Op.add "B" "t2"] = some r ∧
      0 < r.machine.mem.size ∧
      ∃ m' oldest rest, endChat r.machine = some (true, m') ∧
        activeChats r.machine.mem = some (oldest :: rest) ∧
        activeChats m'.mem = some rest := by
  refine ⟨by decide, ?_⟩
  obtain ⟨r, hr, h⟩ := C1_fifo_dequeue 10 (by decide) [Op.add "A" "t1", Op.add "B" "t2"]
  have hs : (exec (start (freshQueue 10) none) [Op.add "A" "t1", Op.add "B" "t2"]).map
      (fun r => r.machine.mem.size) = some 2 := by decide
  rw [hr] at hs
  have hsize : 0 < r.machine.mem.size := by
    have h2 : r.machine.mem.size = 2 := Option.some.inj hs
    rw [h2]; decide
  exact ⟨r, hr, hsize, h hsize⟩

/-- The scenario of the specification: capacity 10, add A, add B, end; A got id 1
and Alice, B got id 2 and Bob, and only B is listed afterwards. -/
theorem scenario_add_add_end :
    (exec (start (freshQueue 10) none) [Op.add "A" "t1", Op.add "B" "t2", Op.finish]).map
      (fun r => (r.results, r.created, activeChats r.machine.mem))
    = some ([true, true, true],
        [ChatRequest.create "A" "Agent Alice" 1 "t1", ChatRequest.create "B" "Agent Bob" 2 "t2"],
        some [ChatRequest.create "B" "Agent Bob" 2 "t2"]) := by
  decide

/-- C2 (enqueue appends at the rear). From the initial empty queue of capacity
`C ≥ 1` every sequence of calls returns; in the state it reaches, if
`size < capacity` then `addChat name` returns true and the front-to-rear sequence
of active chats afterwards is the sequence before followed by the new record, so
every chat queued before is still there, unchanged and in the same order. -/
theorem C2_enqueue_appends (C : Int) (hC : 1 ≤ C) (ops : List Op) (name now : String) :
    ∃ r, exec (start (freshQueue C) none) ops = some r ∧
      (r.machine.mem.size < r.machine.mem.capacity →
        ∃ m' before agent, addChat r.machine name now = some (true, m') ∧
          slotAt r.machine.mem.agents r.machine.mem.currentAgentIndex = some agent ∧
          activeChats r.machine.mem = some before ∧
          activeChats m'.mem
            = some (before ++ [ChatRequest.create name agent r.machine.mem.nextId now])) := by
  obtain ⟨r, hr, hinv⟩ := exec_inv hC ops _
    (runInv_start C defaultAgents hC (by decide) none)
  refine ⟨r, hr, fun hsize => ?_⟩
  obtain ⟨m', before, agent, h1, h2, h3, _, h5⟩ :=
    activeChats_addChat name now hinv.inv hC hsize
  exact ⟨m', before, agent, h1, h2, h3, h5⟩

/-- C2 at capacity 2 after `add A`, `add B`, `end`: the rear cursor stands at
`capacity - 1`, one slot is free, and the add that wraps it to 0 appends. -/
theorem C2_enqueue_appends_witness :
    (1 : Int) ≤ 2 ∧
    ∃ r, exec (start (freshQueue 2) none) [Op.add "A" "t1", Op.add "B" "t2", Op.finish]
        = some r ∧
      r.machine.mem.rear = r.machine.mem.capacity - 1 ∧
      r.machine.mem.size < r.machine.mem.capacity ∧
      ∃ m' before agent, addChat r.machine "C" "t3" = some (true, m') ∧
        slotAt r.machine.mem.agents r.machine.mem.currentAgentIndex = some agent ∧
        activeChats r.machine.mem = some before ∧
        activeChats m'.mem
          = some (before ++ [ChatRequest.create "C" agent r.machine.mem.nextId "t3"]) := by
  refine ⟨by decide, ?_⟩
  obtain ⟨r, hr, h⟩ := C2_enqueue_appends 2 (by decide)
    [Op.add "A" "t1", Op.add "B" "t2", Op.finish] "C" "t3"
  have hs : (exec (start (freshQueue 2) none)
      [Op.add "A" "t1", Op.add "B" "t2", Op.finish]).map
      (fun r => (r.machine.mem.rear, r.machine.mem.size, r.machine.mem.capacity))
      = some (1, 1, 2) := by decide
  rw [hr] at hs
  have h2 : (r.machine.mem.rear, r.machine.mem.size, r.machine.mem.capacity) = (1, 1, 2) :=
    Option.some.inj hs
  simp only [Prod.mk.injEq] at h2
  have hrear : r.machine.mem.rear = r.machine.mem.capacity - 1 := by
    rw [h2.1, h2.2.2]; decide
  have hsize : r.machine.mem.size < r.machine.mem.capacity := by
    rw [h2.2.1, h2.2.2]; decide
  exact ⟨r, hr, hrear, hsize, h hsize⟩

/-- C3 as stated fails: with `rear` below -1 (here -5, as a snapshot may hold it)
the slot subscript `(rear + 1) % capacity` is -4 and the call has no result; with
`nextId` at the largest `int` the counter does not become `nextId + 1`. Each of
the two states meets every hypothesis of the claim. And at `rear = 2^31 - 1`
the `int` sum `rear + 1` of the code is `-2^31`, whose remainder by 10 is -8, not
the residue 8 and not a subscript of the slot array. -/
theorem C3_addChat_postcondition_counterexample :
    (rearBelowRange.mem.size < rearBelowRange.mem.capacity ∧
      1 ≤ rearBelowRange.mem.capacity ∧ rearBelowRange.mem.agents ≠ [] ∧
      0 ≤ rearBelowRange.mem.currentAgentIndex ∧
      rearBelowRange.mem.currentAgentIndex < rearBelowRange.mem.agents.length ∧
      cRem (rearBelowRange.mem.rear + 1) rearBelowRange.mem.capacity = some (-4) ∧
      addChat rearBelowRange "x" "t" = none) ∧
    (lastId.mem.size < lastId.mem.capacity ∧ 1 ≤ lastId.mem.capacity ∧
      lastId.mem.agents ≠ [] ∧ 0 ≤ lastId.mem.currentAgentIndex ∧
      lastId.mem.currentAgentIndex < lastId.mem.agents.length ∧
      (addChat lastId "x" "t").map (fun p => (p.1, p.2.mem.nextId))
        = some (true, -2147483648) ∧
      (-2147483648 : Int) ≠ lastId.mem.nextId + 1) ∧
    (wrapInt (2147483647 + 1) = -2147483648 ∧
      cRem (wrapInt (2147483647 + 1)) 10 = some (-8) ∧
      ((2147483647 : Int) + 1) % 10 = 8 ∧
      slotSet (freshQueue 10).queue (-8) ChatRequest.empty = none) := by
  refine ⟨⟨by decide, by decide, by decide, by decide, by decide, by decide, rfl⟩,
    ⟨by decide, by decide, by decide, by decide, by decide, by decide, by decide⟩,
    ⟨by decide, by decide, by decide, by decide⟩⟩

/-- C3, amended (`addChat` success postcondition). For every state of a queue
object, its slot array at least `capacity` long, with `size < capacity`,
`capacity ≥ 1`, `0 ≤ currentAgentIndex < agentCount`, and in addition
`-1 ≤ rear`, `-2^31 ≤ nextId` and none of `rear`, `nextId`, `currentAgentIndex`
at the largest `int` `2^31 - 1`: `addChat name` returns true,
`rear' = (rear + 1) mod capacity`, slot `rear'` holds the record with id the old
`nextId`, the customer name and `agents[currentAgentIndex]`, `size' = size + 1`,
`nextId' = nextId + 1`, `currentAgentIndex' = (currentAgentIndex + 1) mod
agentCount`, and `front`, `capacity`, the agent list and all other slots are
unchanged. -/
theorem C3_addChat_postcondition (m : Machine) (name now : String)
    (hsize : m.mem.size < m.mem.capacity) (hcap : 1 ≤ m.mem.capacity)
    (hcai0 : 0 ≤ m.mem.currentAgentIndex)
    (hcai1 : m.mem.currentAgentIndex < m.mem.agents.length)
    (hlen : m.mem.capacity ≤ m.mem.queue.length)
    (hrear0 : -1 ≤ m.mem.rear) (hrear1 : m.mem.rear < 2147483647)
    (hid0 : -2147483648 ≤ m.mem.nextId) (hid1 : m.mem.nextId < 2147483647)
    (hcai2 : m.mem.currentAgentIndex < 2147483647) :
    ∃ m' agent, addChat m name now = some (true, m') ∧
      slotAt m.mem.agents m.mem.currentAgentIndex = some agent ∧
      m'.mem.rear = (m.mem.rear + 1) % m.mem.capacity ∧
      m'.mem.rear = Int.tmod (wrapInt (m.mem.rear + 1)) m.mem.capacity ∧
      slotAt m'.mem.queue m'.mem.rear
        = some { customerName := name, agentName := agent, timestamp := now,
                 id := m.mem.nextId } ∧
      m'.mem.size = m.mem.size + 1 ∧
      m'.mem.nextId = m.mem.nextId + 1 ∧
      m'.mem.currentAgentIndex = (m.mem.currentAgentIndex + 1) % m.mem.agents.length ∧
      m'.mem.currentAgentIndex
        = Int.tmod (wrapInt (m.mem.currentAgentIndex + 1)) m.mem.agents.length ∧
      m'.mem.front = m.mem.front ∧ m'.mem.capacity = m.mem.capacity ∧
      m'.mem.agents = m.mem.agents ∧
      m'.mem.queue.length = m.mem.queue.length ∧
      (∀ i : Int, i ≠ m'.mem.rear → slotAt m'.mem.queue i = slotAt m.mem.queue i) ∧
      m'.disk = some (saveState m'.mem) := by
  have hlt : m.mem.currentAgentIndex.toNat < m.mem.agents.length := by omega
  have hagent := List.getElem?_eq_getElem hlt
  have hadd := addChat_eq m name now _ (by omega) hcap hrear0 hlen hcai0 hagent
  have h1 : (0 : Int) ≤ (m.mem.rear + 1) % m.mem.capacity :=
    Int.emod_nonneg _ (by omega)
  have h2 : (m.mem.rear + 1) % m.mem.capacity < m.mem.capacity :=
    Int.emod_lt_of_pos _ (by omega)
  refine ⟨_, m.mem.agents[m.mem.currentAgentIndex.toNat], hadd, ?_, rfl, ?_, ?_, rfl, ?_, rfl,
    ?_, rfl, rfl, rfl, ?_, ?_, rfl⟩
  · rw [slotAt_eq_getElem? _ hcai0, hagent]
  · show (m.mem.rear + 1) % m.mem.capacity = _
    rw [wrapInt_of_range (by omega) (by omega), Int.tmod_eq_emod (by omega) (by omega)]
  · show slotAt (m.mem.queue.set _ _) ((m.mem.rear + 1) % m.mem.capacity) = _
    rw [slotAt_eq_getElem? _ h1, List.getElem?_set_self (by omega)]
    rfl
  · show wrapInt (m.mem.nextId + 1) = _
    exact wrapInt_of_range (by omega) (by omega)
  · show (m.mem.currentAgentIndex + 1) % (m.mem.agents.length : Int) = _
    rw [wrapInt_of_range (by omega) (by omega), Int.tmod_eq_emod (by omega) (by omega)]
  · show (m.mem.queue.set _ _).length = _
    simp
  · intro i hi
    show slotAt (m.mem.queue.set _ _) i = _
    unfold slotAt
    by_cases h0 : 0 ≤ i
    · rw [if_pos h0, if_pos h0, List.getElem?_set_ne]
      intro heq
      apply hi
      show i = (m.mem.rear + 1) % m.mem.capacity
      omega
    · rw [if_neg h0, if_neg h0]

/-- C3's amended statement at the fresh capacity-10 queue. -/
theorem C3_addChat_postcondition_witness :
    ∃ m' agent, addChat (start (freshQueue 10) none).machine "A" "t1" = some (true, m') ∧
      slotAt defaultAgents 0 = some agent ∧
      m'.mem.rear = (-1 + 1) % 10 ∧
      m'.mem.rear = Int.tmod (wrapInt (-1 + 1)) 10 ∧
      slotAt m'.mem.queue m'.mem.rear
        = some { customerName := "A", agentName := agent, timestamp := "t1", id := 1 } ∧
      m'.mem.size = 0 + 1 ∧
      m'.mem.nextId = 1 + 1 ∧
      m'.mem.currentAgentIndex = (0 + 1) % (defaultAgents.length : Int) ∧
      m'.mem.currentAgentIndex = Int.tmod (wrapInt (0 + 1)) (defaultAgents.length : Int) ∧
      m'.mem.front = 0 ∧ m'.mem.capacity = 10 ∧
      m'.mem.agents = defaultAgents ∧
      m'.mem.queue.length = (freshQueue 10).queue.length ∧
      (∀ i : Int, i ≠ m'.mem.rear → slotAt m'.mem.queue i = slotAt (freshQueue 10).queue i) ∧
      m'.disk = some (saveState m'.mem) :=
  C3_addChat_postcondition (start (freshQueue 10) none).machine "A" "t1"
    (by decide) (by decide) (by decide) (by decide) (by decide) (by decide) (by decide)
    (by decide) (by decide) (by decide)

theorem exec_append (r : Run) (xs ys : List Op) :
    exec r (xs ++ ys) = (exec r xs).bind (fun r' => exec r' ys) := by
  induction xs generalizing r with
  | nil => rfl
  | cons x xs ih =>
    simp only [List.cons_append, exec]
    cases perform r x with
    | none => rfl
    | some r1 => exact ih r1

/-- Below the capacity every add succeeds. -/
theorem exec_adds_below {C : Int} {A : List String} (hC : 1 ≤ C) :
    ∀ (adds : List (String × String)) (r : Run), RunInv C A r →
      r.machine.mem.size + adds.length ≤ C →
      ∃ r', exec r (adds.map (fun p => Op.add p.1 p.2)) = some r' ∧ RunInv C A r' ∧
        r'.results = r.results ++ List.replicate adds.length true ∧
        r'.machine.mem.size = r.machine.mem.size + adds.length := by
  intro adds
  induction adds with
  | nil => intro r h _; exact ⟨r, rfl, h, by simp, by simp⟩
  | cons a adds ih =>
    intro r h hle
    have hi := h.inv
    have hlt : r.machine.mem.size < r.machine.mem.capacity := by
      rw [hi.cap]; simp only [List.length_cons] at hle; push_cast at hle; omega
    obtain ⟨m', before, agent, hadd, _, _, hslot, _⟩ :=
      activeChats_addChat a.1 a.2 hi hC hlt
    have hp := perform_add_true hadd hslot
    obtain ⟨r1, hp1, hinv1⟩ := perform_inv h hC (Op.add a.1 a.2)
    rw [hp] at hp1
    have hr1 := Option.some.inj hp1
    have hsz : r1.machine.mem.size = r.machine.mem.size + 1 := by
      rw [← hr1]
      obtain ⟨ag, hag⟩ := inv_agent hi
      have hadd2 := addChat_eq r.machine a.1 a.2 ag (by omega) (by rw [hi.cap]; exact hC)
        hi.rear_lo (by rw [hi.cap, hi.len]) hi.cai_lo hag
      have hm := hadd2.symm.trans hadd
      simp only [Option.some.injEq, Prod.mk.injEq, true_and] at hm
      show m'.mem.size = _
      rw [← hm]
    obtain ⟨r2, h2, hinv2, hres2, hsz2⟩ := ih r1 hinv1 (by
      simp only [List.length_cons] at hle; push_cast at hle; omega)
    refine ⟨r2, ?_, hinv2, ?_, ?_⟩
    · simp only [List.map_cons, exec, hp, hr1, h2]
    · rw [hres2, ← hr1]
      simp [List.replicate_succ]
    · rw [hsz2, hsz]; simp only [List.length_cons]; push_cast; omega

/-- C4 (adding to a full queue fails atomically). In every state with
`size == capacity`, `addChat` returns false and leaves the queue object and the
state file as they were; and from the initial empty queue of capacity 10, of any
eleven adds the first ten return true and the eleventh returns false, with the
size still 10. -/
theorem C4_add_full_fails :
    (∀ (m : Machine) (name now : String), m.mem.size = m.mem.capacity →
      addChat m name now = some (false, m)) ∧
    (∀ adds : List (String × String), adds.length = 11 →
      ∃ r, exec (start (freshQueue 10) none) (adds.map (fun p => Op.add p.1 p.2)) = some r ∧
        r.results = [true, true, true, true, true, true, true, true, true, true, false] ∧
        r.machine.mem.size = 10) := by
  have hfull : ∀ (m : Machine) (name now : String), m.mem.size = m.mem.capacity →
      addChat m name now = some (false, m) := by
    intro m name now h
    simp [addChat, isFull, h]
  refine ⟨hfull, ?_⟩
  intro adds hlen
  have htake : (adds.take 10).length = 10 := by simp [hlen]
  have hdrop : (adds.drop 10).length = 1 := by simp [hlen]
  obtain ⟨last, hlast⟩ := List.length_eq_one.mp hdrop
  have h0 : RunInv 10 defaultAgents (start (freshQueue 10) none) :=
    runInv_start 10 defaultAgents (by decide) (by decide) none
  obtain ⟨r1, hr1, hinv1, hres1, hsz1⟩ := exec_adds_below (by decide) (adds.take 10) _ h0
    (by rw [htake]; decide)
  have hsize : r1.machine.mem.size = 10 := by
    rw [hsz1, htake]; decide
  have hcap : r1.machine.mem.size = r1.machine.mem.capacity := by
    rw [hsize, hinv1.inv.cap]
  have hp := perform_add_false (r := r1) (hfull r1.machine last.1 last.2 hcap)
  have hmap : adds.map (fun p => Op.add p.1 p.2)
      = (adds.take 10).map (fun p => Op.add p.1 p.2) ++ [Op.add last.1 last.2] := by
    have h1 : [Op.add last.1 last.2] = (adds.drop 10).map (fun p => Op.add p.1 p.2) := by
      rw [hlast]; rfl
    rw [h1, ← List.map_append, List.take_append_drop]
  refine ⟨{ machine := r1.machine, results := r1.results ++ [false], created := r1.created,
            used := r1.used }, ?_, ?_, hsize⟩
  · rw [hmap, exec_append, hr1]
    simp only [Option.some_bind, exec, hp]
  · show r1.results ++ [false] = _
    rw [hres1, htake]
    rfl

/-- C4 at a freshly constructed queue of capacity 0, which is full, and at the
eleven adds of customers `c0` to `c10`. -/
theorem C4_add_full_fails_witness :
    (freshQueue 0).size = (freshQueue 0).capacity ∧
    addChat (start (freshQueue 0) none).machine "A" "t1"
      = some (false, (start (freshQueue 0) none).machine) ∧
    ∃ r, exec (start (freshQueue 10) none)
        ([("c0", "t0"), ("c1", "t1"), ("c2", "t2"), ("c3", "t3"), ("c4", "t4"), ("c5", "t5"),
          ("c6", "t6"), ("c7", "t7"), ("c8", "t8"), ("c9", "t9"), ("c10", "t10")].map
          (fun p => Op.add p.1 p.2)) = some r ∧
      r.results = [true, true, true, true, true, true, true, true, true, true, false] ∧
      r.machine.mem.size = 10 :=
  ⟨by decide, C4_add_full_fails.1 _ "A" "t1" (by decide),
    C4_add_full_fails.2 _ (by decide)⟩

/-- C5 (ending on an empty queue fails atomically). In every state with
`size == 0`, `endChat` returns false and leaves the queue object and the state
file as they were. -/
theorem C5_end_empty_fails (m : Machine) (h : m.mem.size = 0) :
    endChat m = some (false, m) := by
  simp [endChat, isEmpty, h]

/-- C5 at the freshly constructed queue of capacity 10. -/
theorem C5_end_empty_fails_witness :
    (freshQueue 10).size = 0 ∧
    endChat (start (freshQueue 10) none).machine
      = some (false, (start (freshQueue 10) none).machine) :=
  ⟨by decide, C5_end_empty_fails _ (by decide)⟩

/-- A queue of capacity 0 is full and empty at once: no call changes anything. -/
theorem exec_capacity_zero (ops : List Op) :
    ∀ r : Run, r.machine.mem.size = 0 → r.machine.mem.capacity = 0 →
      ∃ r', exec r ops = some r' ∧ r'.machine = r.machine ∧ r'.created = r.created ∧
        r'.used = r.used := by
  induction ops with
  | nil => intro r _ _; exact ⟨r, rfl, rfl, rfl, rfl⟩
  | cons op ops ih =>
    intro r hs hc
    cases op with
    | add c t =>
      have hadd : addChat r.machine c t = some (false, r.machine) := by
        simp [addChat, isFull, hs, hc]
      obtain ⟨r2, h2, hm, hcr, hu⟩ := ih
        { machine := r.machine, results := r.results ++ [false], created := r.created,
          used := r.used } hs hc
      exact ⟨r2, by simp only [exec, perform_add_false hadd, h2], hm, hcr, hu⟩
    | finish =>
      have hend : endChat r.machine = some (false, r.machine) := by
        simp [endChat, isEmpty, hs]
      obtain ⟨r2, h2, hm, hcr, hu⟩ := ih
        { machine := r.machine, results := r.results ++ [false], created := r.created,
          used := r.used } hs hc
      exact ⟨r2, by simp only [exec, perform_finish hend, h2], hm, hcr, hu⟩

/-- A successful `addChat` increases the size by one, in any state. -/
theorem addChat_size {m m' : Machine} {c t : String}
    (hadd : addChat m c t = some (true, m')) : m'.mem.size = m.mem.size + 1 := by
  unfold addChat at hadd
  split at hadd
  · simp at hadd
  · split at hadd
    · exact Option.noConfusion hadd
    · split at hadd
      · exact Option.noConfusion hadd
      · split at hadd
        · exact Option.noConfusion hadd
        · split at hadd
          · exact Option.noConfusion hadd
          · simp only [Option.some.injEq, Prod.mk.injEq, true_and] at hadd
            rw [← hadd]

/-- C6 (round-robin assignment). From the initial empty queue of capacity
`C ≥ 0` with a non-empty agent list `A`, every sequence of `addChat`/`endChat`
calls returns; the record created by the `k`-th successful add (counted from 0,
failed adds and ends not counted) carries the agent name `A[k mod |A|]`, and an
add that returns true in the state reached increases the size by exactly 1. -/
theorem C6_round_robin (C : Int) (A : List String) (hC : 0 ≤ C) (hA : A ≠ [])
    (ops : List Op) :
    ∃ r, exec (start (emptyQueue C A) none) ops = some r ∧
      (∀ (k : Nat) (chat : ChatRequest), r.created[k]? = some chat →
        A[k % A.length]? = some chat.agentName) ∧
      (∀ (name now : String) (m' : Machine),
        addChat r.machine name now = some (true, m') →
        m'.mem.size = r.machine.mem.size + 1) := by
  have hlen : 0 < A.length := List.length_pos.mpr hA
  by_cases h0 : C = 0
  · subst h0
    obtain ⟨r, hr, _, hcr, _⟩ := exec_capacity_zero ops (start (emptyQueue 0 A) none) rfl rfl
    refine ⟨r, hr, ?_, fun _ _ _ h => addChat_size h⟩
    intro k chat hk
    rw [hcr] at hk
    simp [start] at hk
  · have hC1 : 1 ≤ C := by omega
    obtain ⟨r, hr, hinv⟩ := exec_inv hC1 ops _ (runInv_start C A hC1 hA none)
    refine ⟨r, hr, ?_, fun _ _ _ h => addChat_size h⟩
    intro k chat hk
    have hklt : k < r.created.length := by
      by_contra hge
      rw [List.getElem?_eq_none (by omega)] at hk
      exact Option.noConfusion hk
    have hnames := congrArg (fun l => l[k]?) hinv.names
    simp only [List.getElem?_map, hk, Option.map_some', List.getElem?_range hklt] at hnames
    have hmod : k % A.length < A.length := Nat.mod_lt _ hlen
    rw [List.getElem?_eq_getElem hmod, Option.some.inj hnames,
      List.getD_eq_getElem _ _ hmod]

/-- C6 with three agents at capacity 2: the four successful adds of the run get
agents 0, 1, 2, 0. -/
theorem C6_round_robin_witness :
    (0 : Int) ≤ 2 ∧ ["X", "Y", "Z"] ≠ [] ∧
    ∃ r, exec (start (emptyQueue 2 ["X", "Y", "Z"]) none)
        [Op.add "a" "t", Op.add "b" "t", Op.add "c" "t", Op.finish, Op.add "d" "t",
          Op.finish, Op.finish, Op.finish, Op.add "e" "t"] = some r ∧
      (∀ (k : Nat) (chat : ChatRequest), r.created[k]? = some chat →
        ["X", "Y", "Z"][k % ["X", "Y", "Z"].length]? = some chat.agentName) ∧
      (∀ (name now : String) (m' : Machine),
        addChat r.machine name now = some (true, m') →
        m'.mem.size = r.machine.mem.size + 1) :=
  ⟨by decide, by decide, C6_round_robin 2 ["X", "Y", "Z"] (by decide) (by decide) _⟩

/-- The run of the C6 witness, evaluated: which calls succeeded and the agents
assigned. -/
theorem round_robin_example :
    (exec (start (emptyQueue 2 ["X", "Y", "Z"]) none)
        [Op.add "a" "t", Op.add "b" "t", Op.add "c" "t", Op.finish, Op.add "d" "t",
          Op.finish, Op.finish, Op.finish, Op.add "e" "t"]).map
      (fun r => (r.results, r.created.map (fun chat => chat.agentName)))
    = some ([true, true, false, true, true, true, true, false, true],
        ["X", "Y", "Z", "X"]) := by
  decide

/-! ## Ids -/

theorem map_wrapInt_range {n : Nat} (hn : n < 2147483647) :
    (List.range n).map (fun (k : Nat) => wrapInt ((k : Int) + 1))
      = (List.range n).map (fun (k : Nat) => (k : Int) + 1) := by
  apply List.map_congr_left
  intro k hk
  have := List.mem_range.mp hk
  exact wrapInt_of_range (by omega) (by omega)

theorem pairwise_succ_range (n : Nat) :
    ((List.range n).map (fun (k : Nat) => (k : Int) + 1)).Pairwise (fun a b => a < b) := by
  rw [List.pairwise_map]
  exact (List.pairwise_lt_range n).imp (fun h => by omega)

/-- C7 (ids are fresh and monotone). From the initial empty queue (`nextId = 1`)
of capacity `C ≥ 0`, every sequence of calls returns; if it contains fewer than
`2^31 - 1` successful adds then the `k`-th successful add (from 0) was assigned
id `k + 1`, one more than the add before it; `nextId` is greater than every id
assigned so far; the ids assigned are strictly increasing, hence never repeated,
also after their chat was ended; and the ids of the active chats are strictly
increasing from front to rear. -/
theorem C7_fresh_ids (C : Int) (A : List String) (hC : 0 ≤ C) (hA : A ≠ [])
    (ops : List Op) :
    ∃ r, exec (start (emptyQueue C A) none) ops = some r ∧
      (r.created.length < 2147483647 →
        (∀ (k : Nat) (chat : ChatRequest), r.created[k]? = some chat →
          chat.id = (k : Int) + 1) ∧
        (∀ (k : Nat) (prev chat : ChatRequest), r.created[k]? = some prev →
          r.created[k + 1]? = some chat → chat.id = prev.id + 1) ∧
        (∀ chat ∈ r.created, chat.id < r.machine.mem.nextId) ∧
        r.machine.mem.nextId = (r.created.length : Int) + 1 ∧
        (r.created.map (fun chat => chat.id)).Pairwise (fun a b => a < b) ∧
        (r.created.map (fun chat => chat.id)).Nodup ∧
        ∃ act, activeChats r.machine.mem = some act ∧
          (act.map (fun chat => chat.id)).Pairwise (fun a b => a < b)) := by
  by_cases h0 : C = 0
  · subst h0
    obtain ⟨r, hr, hm, hcr, _⟩ := exec_capacity_zero ops (start (emptyQueue 0 A) none) rfl rfl
    have hcr' : r.created = [] := hcr
    refine ⟨r, hr, fun _ => ⟨?_, ?_, ?_, ?_, ?_, ?_, [], ?_, List.Pairwise.nil⟩⟩
    · intro k chat hk; rw [hcr'] at hk; simp at hk
    · intro k prev chat hk; rw [hcr'] at hk; simp at hk
    · intro chat hmem; rw [hcr'] at hmem; simp at hmem
    · rw [hm, hcr']; rfl
    · rw [hcr']; exact List.Pairwise.nil
    · rw [hcr']; exact List.nodup_nil
    · rw [hm]; rfl
  · have hC1 : 1 ≤ C := by omega
    obtain ⟨r, hr, hinv⟩ := exec_inv hC1 ops _ (runInv_start C A hC1 hA none)
    refine ⟨r, hr, fun hn => ?_⟩
    have hids : r.created.map (fun chat => chat.id)
        = (List.range r.created.length).map (fun (k : Nat) => (k : Int) + 1) := by
      rw [hinv.ids, map_wrapInt_range hn]
    have hpw : (r.created.map (fun chat => chat.id)).Pairwise (fun a b => a < b) := by
      rw [hids]; exact pairwise_succ_range _
    have hid : ∀ (k : Nat) (chat : ChatRequest), r.created[k]? = some chat →
        chat.id = (k : Int) + 1 := by
      intro k chat hk
      have hklt : k < r.created.length := by
        by_contra hge
        rw [List.getElem?_eq_none (by omega)] at hk
        exact Option.noConfusion hk
      have h1 := congrArg (fun l => l[k]?) hids
      simp only [List.getElem?_map, hk, Option.map_some', List.getElem?_range hklt] at h1
      exact Option.some.inj h1
    have hnid : r.machine.mem.nextId = (r.created.length : Int) + 1 := by
      rw [hinv.nid]; exact wrapInt_of_range (by omega) (by omega)
    refine ⟨hid, ?_, ?_, hnid, hpw, ?_, ?_⟩
    · intro k prev chat hk hk1
      rw [hid k prev hk, hid (k + 1) chat hk1]
      push_cast; rfl
    · intro chat hmem
      obtain ⟨k, hklt, hk⟩ := List.getElem_of_mem hmem
      have hk' : r.created[k]? = some chat := by
        rw [List.getElem?_eq_getElem hklt, hk]
      rw [hid k chat hk', hnid]
      omega
    · exact hpw.imp (fun h => by omega)
    · obtain ⟨pre, act, hcreated, hact⟩ := hinv.hist
      refine ⟨act, hact, ?_⟩
      rw [hcreated, List.map_append] at hpw
      exact (List.pairwise_append.mp hpw).2.1

/-- C7 on a run with four successful adds, two ends and one failed add. -/
theorem C7_fresh_ids_witness :
    (0 : Int) ≤ 2 ∧ defaultAgents ≠ [] ∧
    ∃ r, exec (start (emptyQueue 2 defaultAgents) none)
        [Op.add "a" "t", Op.add "b" "t", Op.add "c" "t", Op.finish, Op.add "d" "t",
          Op.finish, Op.add "e" "t"] = some r ∧
      r.created.length < 2147483647 ∧
      (∀ (k : Nat) (chat : ChatRequest), r.created[k]? = some chat →
        chat.id = (k : Int) + 1) ∧
      (∀ (k : Nat) (prev chat : ChatRequest), r.created[k]? = some prev →
        r.created[k + 1]? = some chat → chat.id = prev.id + 1) ∧
      (∀ chat ∈ r.created, chat.id < r.machine.mem.nextId) ∧
      r.machine.mem.nextId = (r.created.length : Int) + 1 ∧
      (r.created.map (fun chat => chat.id)).Pairwise (fun a b => a < b) ∧
      (r.created.map (fun chat => chat.id)).Nodup ∧
      ∃ act, activeChats r.machine.mem = some act ∧
        (act.map (fun chat => chat.id)).Pairwise (fun a b => a < b) := by
  refine ⟨by decide, by decide, ?_⟩
  obtain ⟨r, hr, h⟩ := C7_fresh_ids 2 defaultAgents (by decide) (by decide)
    [Op.add "a" "t", Op.add "b" "t", Op.add "c" "t", Op.finish, Op.add "d" "t",
      Op.finish, Op.add "e" "t"]
  have hs : (exec (start (emptyQueue 2 defaultAgents) none)
      [Op.add "a" "t", Op.add "b" "t", Op.add "c" "t", Op.finish, Op.add "d" "t",
        Op.finish, Op.add "e" "t"]).map (fun r => r.created.length) = some 4 := by decide
  rw [hr] at hs
  have h4 : r.created.length = 4 := Option.some.inj hs
  have hlt : r.created.length < 2147483647 := by rw [h4]; decide
  exact ⟨r, hr, hlt, h hlt⟩

/-- C8 (cursor/size invariant). From the initial empty queue (`front = 0`,
`rear = -1`, `size = 0`) of capacity `C ≥ 1`, every sequence of calls returns,
and in the state it reaches `0 ≤ size ≤ C`, `0 ≤ front < C`, `-1 ≤ rear < C`
and `(rear + 1) mod C = (front + size) mod C`: the number of slots from `front`
to `rear` counted circularly is `size`, or 0 when `size = C`; the loop over the
active chats visits exactly `size` slots. -/
theorem C8_cursor_invariant (C : Int) (hC : 1 ≤ C) (ops : List Op) :
    (freshQueue C).front = 0 ∧ (freshQueue C).rear = -1 ∧ (freshQueue C).size = 0 ∧
    ∃ r, exec (start (freshQueue C) none) ops = some r ∧
      r.machine.mem.capacity = C ∧
      0 ≤ r.machine.mem.size ∧ r.machine.mem.size ≤ C ∧
      0 ≤ r.machine.mem.front ∧ r.machine.mem.front < C ∧
      -1 ≤ r.machine.mem.rear ∧ r.machine.mem.rear < C ∧
      (r.machine.mem.rear + 1) % C = (r.machine.mem.front + r.machine.mem.size) % C ∧
      (r.machine.mem.size < C →
        (r.machine.mem.rear + 1 - r.machine.mem.front) % C = r.machine.mem.size) ∧
      (r.machine.mem.size = C →
        (r.machine.mem.rear + 1 - r.machine.mem.front) % C = 0) ∧
      ∃ act, activeChats r.machine.mem = some act ∧ (act.length : Int) = r.machine.mem.size := by
  refine ⟨rfl, rfl, rfl, ?_⟩
  obtain ⟨r, hr, hinv⟩ := exec_inv hC ops _
    (runInv_start C defaultAgents hC (by decide) none)
  have hi := hinv.inv
  have hdiff : (r.machine.mem.rear + 1 - r.machine.mem.front) % C = r.machine.mem.size % C := by
    have h1 := (Int.emod_sub_cancel_right r.machine.mem.front).mpr hi.cursor
    rw [h1]
    congr 1; omega
  refine ⟨r, hr, hi.cap, hi.size_lo, hi.size_hi, hi.front_lo, hi.front_hi, hi.rear_lo,
    hi.rear_hi, hi.cursor, ?_, ?_, ?_⟩
  · intro hlt
    rw [hdiff]
    exact Int.emod_eq_of_lt hi.size_lo hlt
  · intro heq
    rw [hdiff, heq]
    exact Int.emod_self
  · refine ⟨_, activeChats_eq hi hC, ?_⟩
    simp only [List.length_map, List.length_range']
    have := hi.size_lo
    omega

/-- C8 at capacity 3 on a run that wraps both cursors. -/
theorem C8_cursor_invariant_witness :
    (1 : Int) ≤ 3 ∧
    (freshQueue 3).front = 0 ∧ (freshQueue 3).rear = -1 ∧ (freshQueue 3).size = 0 ∧
    ∃ r, exec (start (freshQueue 3) none)
        [Op.add "a" "t", Op.add "b" "t", Op.add "c" "t", Op.finish, Op.finish, Op.add "d" "t",
          Op.finish, Op.add "e" "t", Op.finish] = some r ∧
      r.machine.mem.capacity = 3 ∧
      0 ≤ r.machine.mem.size ∧ r.machine.mem.size ≤ 3 ∧
      0 ≤ r.machine.mem.front ∧ r.machine.mem.front < 3 ∧
      -1 ≤ r.machine.mem.rear ∧ r.machine.mem.rear < 3 ∧
      (r.machine.mem.rear + 1) % 3 = (r.machine.mem.front + r.machine.mem.size) % 3 ∧
      (r.machine.mem.size < 3 →
        (r.machine.mem.rear + 1 - r.machine.mem.front) % 3 = r.machine.mem.size) ∧
      (r.machine.mem.size = 3 →
        (r.machine.mem.rear + 1 - r.machine.mem.front) % 3 = 0) ∧
      ∃ act, activeChats r.machine.mem = some act ∧ (act.length : Int) = r.machine.mem.size :=
  ⟨by decide, C8_cursor_invariant 3 (by decide) _⟩

/-! ## The agent pointer -/

theorem map_mod_range'_perm {a : Nat} (ha : 0 < a) (n : Nat) :
    ((List.range' n a).map (fun k => k % a)).Perm (List.range a) := by
  induction n with
  | zero =>
    rw [← List.range_eq_range']
    have h : (List.range a).map (fun k => k % a) = (List.range a).map id := by
      apply List.map_congr_left
      intro k hk
      exact Nat.mod_eq_of_lt (List.mem_range.mp hk)
    rw [h, List.map_id]
  | succ n ih =>
    obtain ⟨b, rfl⟩ : ∃ b, a = b + 1 := ⟨a - 1, by omega⟩
    have h1 : List.range' n (b + 1) = n :: List.range' (n + 1) b := rfl
    have h2 : List.range' (n + 1) (b + 1) = List.range' (n + 1) b ++ [n + 1 + b] := by
      rw [List.range'_concat]; simp
    rw [h1, List.map_cons] at ih
    rw [h2, List.map_append, List.map_cons, List.map_nil]
    have h3 : (n + 1 + b) % (b + 1) = n % (b + 1) := by
      rw [show n + 1 + b = n + (b + 1) by omega, Nat.add_mod_right]
    rw [h3]
    exact (List.perm_append_comm.trans (by simp)).trans ih

/-- Method `endChat` never changes the agent pointer. -/
theorem endChat_agent_index {m m' : Machine} {ok : Bool}
    (hend : endChat m = some (ok, m')) :
    m'.mem.currentAgentIndex = m.mem.currentAgentIndex := by
  unfold endChat at hend
  split at hend
  · simp only [Option.some.injEq, Prod.mk.injEq] at hend
    rw [← hend.2]
  · split at hend
    · exact Option.noConfusion hend
    · simp only [Option.some.injEq, Prod.mk.injEq] at hend
      rw [← hend.2]

/-- C9 (the agent pointer cycles through all agents before repeating). From
the initial queue of capacity `C ≥ 0` with a non-empty agent list `A`, every
sequence of calls returns and leaves `0 ≤ currentAgentIndex < |A|`; if a
continuation of the run contains exactly `|A|` successful adds (with any ends
and failed adds in between), the subscripts those adds used are a permutation
of `0, ..., |A| - 1` and `currentAgentIndex` is back at its value; and in any
state `endChat` and a failed `addChat` leave `currentAgentIndex` as it was. -/
theorem C9_agent_pointer_cycles (C : Int) (A : List String) (hC : 0 ≤ C) (hA : A ≠ [])
    (ops more : List Op) :
    (∃ r r', exec (start (emptyQueue C A) none) ops = some r ∧ exec r more = some r' ∧
      0 ≤ r.machine.mem.currentAgentIndex ∧
      r.machine.mem.currentAgentIndex < A.length ∧
      r.machine.mem.agents = A ∧
      r.used.length = r.created.length ∧ r'.used.length = r'.created.length ∧
      (r'.created.length = r.created.length + A.length →
        (r'.used.drop r.used.length).Perm
          ((List.range A.length).map (fun (k : Nat) => (k : Int))) ∧
        r'.machine.mem.currentAgentIndex = r.machine.mem.currentAgentIndex)) ∧
    (∀ (m m' : Machine) (ok : Bool), endChat m = some (ok, m') →
      m'.mem.currentAgentIndex = m.mem.currentAgentIndex) ∧
    (∀ (m m' : Machine) (name now : String), addChat m name now = some (false, m') →
      m'.mem.currentAgentIndex = m.mem.currentAgentIndex) := by
  have hlen : 0 < A.length := List.length_pos.mpr hA
  refine ⟨?_, fun m m' ok h => endChat_agent_index h,
    fun m m' name now h => by rw [addChat_false h]⟩
  by_cases h0 : C = 0
  · subst h0
    obtain ⟨r, hr, hm, hcr, hu⟩ := exec_capacity_zero ops (start (emptyQueue 0 A) none) rfl rfl
    obtain ⟨r', hr', hm', hcr', hu'⟩ := exec_capacity_zero more r (by rw [hm]; rfl)
      (by rw [hm]; rfl)
    refine ⟨r, r', hr, hr', by rw [hm]; exact Int.le_refl 0, ?_, by rw [hm]; rfl,
      by rw [hcr, hu]; rfl, by rw [hcr', hu', hcr, hu]; rfl, ?_⟩
    · rw [hm]; show (0 : Int) < A.length; omega
    · intro hcount
      rw [hcr'] at hcount
      omega
  · have hC1 : 1 ≤ C := by omega
    obtain ⟨r, hr, hinv⟩ := exec_inv hC1 ops _ (runInv_start C A hC1 hA none)
    obtain ⟨r', hr', hinv'⟩ := exec_inv hC1 more r hinv
    have hul : r.used.length = r.created.length := by rw [hinv.used]; simp
    have hul' : r'.used.length = r'.created.length := by rw [hinv'.used]; simp
    refine ⟨r, r', hr, hr', hinv.inv.cai_lo, hinv.inv.cai_hi, hinv.inv.agents, hul, hul', ?_⟩
    intro hcount
    constructor
    · have hsplit : (List.range (r.created.length + A.length)).map
            (fun (k : Nat) => ((k % A.length : Nat) : Int))
          = (List.range r.created.length).map (fun (k : Nat) => ((k % A.length : Nat) : Int))
            ++ ((List.range' r.created.length A.length).map (fun k => k % A.length)).map
              (fun (k : Nat) => (k : Int)) := by
        have happ := List.range'_append_1 0 r.created.length A.length
        rw [Nat.add_comm A.length r.created.length, Nat.zero_add] at happ
        rw [List.range_eq_range', ← happ, List.map_append, ← List.range_eq_range',
          List.map_map]
        rfl
      rw [hinv'.used, hcount, hsplit, hul, List.drop_left' (by simp)]
      exact (map_mod_range'_perm hlen _).map _
    · rw [hinv'.cai, hinv.cai, hcount, Nat.add_mod_right]

/-- C9 at capacity 2 with three agents: after one add, a continuation with
three successful adds, one failed add and two ends. -/
theorem C9_agent_pointer_cycles_witness :
    (0 : Int) ≤ 2 ∧ ["X", "Y", "Z"] ≠ [] ∧
    ∃ r r', exec (start (emptyQueue 2 ["X", "Y", "Z"]) none) [Op.add "a" "t"] = some r ∧
      exec r [Op.add "b" "t", Op.add "f" "t", Op.finish, Op.add "c" "t", Op.finish,
        Op.add "d" "t"] = some r' ∧
      r'.created.length = r.created.length + ["X", "Y", "Z"].length ∧
      (r'.used.drop r.used.length).Perm
        ((List.range ["X", "Y", "Z"].length).map (fun (k : Nat) => (k : Int))) ∧
      r'.machine.mem.currentAgentIndex = r.machine.mem.currentAgentIndex := by
  refine ⟨by decide, by decide, ?_⟩
  obtain ⟨⟨r, r', hr, hr', _, _, _, _, _, h⟩, _, _⟩ :=
    C9_agent_pointer_cycles 2 ["X", "Y", "Z"] (by decide) (by decide) [Op.add "a" "t"]
      [Op.add "b" "t", Op.add "f" "t", Op.finish, Op.add "c" "t", Op.finish, Op.add "d" "t"]
  have h1 : (exec (start (emptyQueue 2 ["X", "Y", "Z"]) none) [Op.add "a" "t"]).map
      (fun r => r.created.length) = some 1 := by decide
  have h2 : (exec (start (emptyQueue 2 ["X", "Y", "Z"]) none) ([Op.add "a" "t"] ++
      [Op.add "b" "t", Op.add "f" "t", Op.finish, Op.add "c" "t", Op.finish,
        Op.add "d" "t"])).map (fun r => r.created.length) = some 4 := by decide
  rw [exec_append, hr, Option.some_bind, hr'] at h2
  rw [hr] at h1
  have h1' : r.created.length = 1 := Option.some.inj h1
  have h2' : r'.created.length = 4 := Option.some.inj h2
  have hcount : r'.created.length = r.created.length + ["X", "Y", "Z"].length := by
    rw [h1', h2']; rfl
  exact ⟨r, r', hr, hr', hcount, h hcount⟩

/-! ## Save and load -/

theorem loadSlot_slotJson (chat : ChatRequest) (h : IsInt32 chat.id) :
    loadSlot (slotJson chat) = some chat := by
  have hw : wrapInt chat.id = chat.id := wrapInt_of_range h.1 h.2
  simp [loadSlot, slotJson, Json.valueString, Json.valueInt, findMember, Json.getString,
    Json.getInt, hw]

theorem loadSlots_map_slotJson (l : List ChatRequest) (h : ∀ chat ∈ l, IsInt32 chat.id) :
    loadSlots (l.map slotJson) = some l := by
  induction l with
  | nil => rfl
  | cons chat l ih =>
    have h1 := loadSlot_slotJson chat (h chat (List.mem_cons_self _ _))
    have h2 := ih (fun c hc => h c (List.mem_cons_of_mem _ hc))
    simp only [List.map_cons, loadSlots, h1, h2]

theorem ensureSize_of_le (queue : List ChatRequest) (capacity : Int)
    (h : capacity ≤ queue.length) : ensureSize queue capacity = queue := by
  unfold ensureSize
  rw [if_neg (by omega)]

theorem wellTyped_of_runInv {C : Int} {A : List String} {r : Run} (h : RunInv C A r)
    (hC : C < 2147483648) (hA : (A.length : Int) < 2147483648) :
    WellTyped r.machine.mem := by
  have hi := h.inv
  have h1 := hi.front_lo
  have h2 := hi.front_hi
  have h3 := hi.size_lo
  have h4 := hi.size_hi
  have h5 := hi.rear_lo
  have h6 := hi.rear_hi
  have h7 := hi.cai_lo
  have h8 := hi.cai_hi
  refine ⟨⟨by omega, by omega⟩, ⟨by omega, by omega⟩, ⟨by omega, by omega⟩, ?_,
    ⟨by omega, by omega⟩, ?_, h.typed⟩
  · rw [hi.cap]; exact ⟨by omega, by omega⟩
  · rw [h.nid]; exact wrapInt_isInt32 _

/-- C10 (save/load round trip). For every queue state `s` whose `int` fields hold
`int` values and whose slot array has length at least `capacity`, loading the
snapshot written by `saveState s` into any queue object, in particular into one
freshly constructed with any capacity `cap ≥ 0`, yields exactly `s`: the same
cursors, size, capacity, agent pointer, id counter, agent list and slot array,
hence the same active chats in the same order. In particular this holds for every
state reached from the initial empty queue of an `int` capacity `C ≥ 1` by
`addChat`/`endChat` calls. -/
theorem C10_save_load_round_trip :
    (∀ (s q0 : CircularQueue) (cap : Int), WellTyped s → s.capacity ≤ s.queue.length →
      0 ≤ cap →
      loadState q0 (some (saveState s)) = some s ∧
      construct cap (some (saveState s)) = some s ∧
      (construct cap (some (saveState s))).map activeChats = some (activeChats s)) ∧
    (∀ (C : Int) (ops : List Op) (cap : Int), 1 ≤ C → C < 2147483648 → 0 ≤ cap →
      ∃ r, exec (start (freshQueue C) none) ops = some r ∧
        construct cap (some (saveState r.machine.mem)) = some r.machine.mem) := by
  have hload : ∀ (s q : CircularQueue), WellTyped s → s.capacity ≤ s.queue.length →
      loadState q (some (saveState s)) = some s := by
    intro s q htyped hlen
    obtain ⟨h1, h2, h3, h4, h5, h6, h7⟩ := htyped
    simp [loadState, saveState, Json.valueInt, Json.valueStringList, Json.itemsAt, findMember,
      Json.getInt, Json.getStringList, getStrings_map_str, loadSlots_map_slotJson _ h7,
      ensureSize_of_le _ _ hlen, wrapInt_of_range h1.1 h1.2, wrapInt_of_range h2.1 h2.2,
      wrapInt_of_range h3.1 h3.2, wrapInt_of_range h4.1 h4.2, wrapInt_of_range h5.1 h5.2,
      wrapInt_of_range h6.1 h6.2]
  have hcons : ∀ (s : CircularQueue) (cap : Int), WellTyped s → s.capacity ≤ s.queue.length →
      0 ≤ cap → construct cap (some (saveState s)) = some s := by
    intro s cap htyped hlen hcap
    unfold construct
    rw [if_neg (by omega)]
    exact hload s _ htyped hlen
  constructor
  · intro s q0 cap htyped hlen hcap
    exact ⟨hload s q0 htyped hlen, hcons s cap htyped hlen hcap,
      by rw [hcons s cap htyped hlen hcap]; rfl⟩
  · intro C ops cap hC hC2 hcap
    obtain ⟨r, hr, hinv⟩ := exec_inv hC ops _
      (runInv_start C defaultAgents hC (by decide) none)
    have hty := wellTyped_of_runInv hinv hC2 (by decide)
    exact ⟨r, hr, hcons _ cap hty (by rw [hinv.inv.cap, hinv.inv.len]) hcap⟩

/-- C10 at a capacity-3 queue holding one chat behind a wrapped front cursor,
loaded into a queue constructed with capacity 10; and at the capacity-3 run
`add a`, `add b`, `end`. -/
theorem C10_save_load_round_trip_witness :
    WellTyped sampleQueue ∧ sampleQueue.capacity ≤ sampleQueue.queue.length ∧
    (0 : Int) ≤ 10 ∧ (1 : Int) ≤ 3 ∧ (3 : Int) < 2147483648 ∧
    (loadState (freshQueue 10) (some (saveState sampleQueue)) = some sampleQueue ∧
      construct 10 (some (saveState sampleQueue)) = some sampleQueue ∧
      (construct 10 (some (saveState sampleQueue))).map activeChats
        = some (activeChats sampleQueue)) ∧
    ∃ r, exec (start (freshQueue 3) none) [Op.add "a" "t", Op.add "b" "t", Op.finish]
        = some r ∧
      construct 10 (some (saveState r.machine.mem)) = some r.machine.mem :=
  ⟨by decide, by decide, by decide, by decide, by decide,
    C10_save_load_round_trip.1 sampleQueue (freshQueue 10) 10 (by decide) (by decide)
      (by decide),
    C10_save_load_round_trip.2 3 _ 10 (by decide) (by decide) (by decide)⟩

/-! ## One invocation per command -/

/-- Loading what `saveState` wrote gives the state back. -/
theorem loadState_saveState (s q : CircularQueue) (htyped : WellTyped s)
    (hlen : s.capacity ≤ s.queue.length) : loadState q (some (saveState s)) = some s := by
  obtain ⟨h1, h2, h3, h4, h5, h6, h7⟩ := htyped
  simp [loadState, saveState, Json.valueInt, Json.valueStringList, Json.itemsAt, findMember,
    Json.getInt, Json.getStringList, getStrings_map_str, loadSlots_map_slotJson _ h7,
    ensureSize_of_le _ _ hlen, wrapInt_of_range h1.1 h1.2, wrapInt_of_range h2.1 h2.2,
    wrapInt_of_range h3.1 h3.2, wrapInt_of_range h4.1 h4.2, wrapInt_of_range h5.1 h5.2,
    wrapInt_of_range h6.1 h6.2]

theorem construct_saveState (s : CircularQueue) (cap : Int) (htyped : WellTyped s)
    (hlen : s.capacity ≤ s.queue.length) (hcap : 0 ≤ cap) :
    construct cap (some (saveState s)) = some s := by
  unfold construct
  rw [if_neg (by omega)]
  exact loadState_saveState s _ htyped hlen

/-- A successful `addChat` leaves the snapshot of the new state in the file. -/
theorem addChat_saved {m m' : Machine} {c t : String}
    (hadd : addChat m c t = some (true, m')) : m'.disk = some (saveState m'.mem) := by
  unfold addChat at hadd
  split at hadd
  · simp at hadd
  · split at hadd
    · exact Option.noConfusion hadd
    · split at hadd
      · exact Option.noConfusion hadd
      · split at hadd
        · exact Option.noConfusion hadd
        · split at hadd
          · exact Option.noConfusion hadd
          · simp only [Option.some.injEq, Prod.mk.injEq, true_and] at hadd
            rw [← hadd]

/-- A successful `endChat` leaves the snapshot of the new state in the file. -/
theorem endChat_saved {m m' : Machine} (hend : endChat m = some (true, m')) :
    m'.disk = some (saveState m'.mem) := by
  unfold endChat at hend
  split at hend
  · simp at hend
  · split at hend
    · exact Option.noConfusion hend
    · simp only [Option.some.injEq, Prod.mk.injEq, true_and] at hend
      rw [← hend]

/-- A step of a run is the call it stands for. -/
theorem perform_call {r r' : Run} {op : Op} (h : perform r op = some r') :
    ∃ ok, call r.machine op = some (ok, r'.machine) ∧ r'.results = r.results ++ [ok] := by
  cases op with
  | add c t =>
    simp only [perform] at h
    cases hadd : addChat r.machine c t with
    | none => rw [hadd] at h; exact Option.noConfusion h
    | some p =>
      obtain ⟨ok, m⟩ := p
      rw [hadd] at h
      cases ok with
      | false =>
        simp only [Option.some.injEq] at h
        exact ⟨false, by rw [← h]; exact hadd, by rw [← h]⟩
      | true =>
        simp only [] at h
        split at h
        · exact Option.noConfusion h
        · simp only [Option.some.injEq] at h
          exact ⟨true, by rw [← h]; exact hadd, by rw [← h]⟩
  | finish =>
    simp only [perform] at h
    cases hend : endChat r.machine with
    | none => rw [hend] at h; exact Option.noConfusion h
    | some p =>
      obtain ⟨ok, m⟩ := p
      rw [hend] at h
      simp only [Option.some.injEq] at h
      exact ⟨ok, by rw [← h]; exact hend, by rw [← h]⟩

/-- A call leaves a file from which the constructor rebuilds the queue. -/
theorem call_reload {C : Int} {A : List String} {r r' : Run} {op : Op} (cap : Int)
    (hcap : 0 ≤ cap) (hC : C < 2147483648) (hA : (A.length : Int) < 2147483648)
    (hinv' : RunInv C A r') (h : perform r op = some r')
    (hre : construct cap r.machine.disk = some r.machine.mem) :
    construct cap r'.machine.disk = some r'.machine.mem := by
  obtain ⟨ok, hcall, _⟩ := perform_call h
  have hty := wellTyped_of_runInv hinv' hC hA
  have hlen : r'.machine.mem.capacity ≤ r'.machine.mem.queue.length := by
    rw [hinv'.inv.cap, hinv'.inv.len]
  cases ok with
  | true =>
    have hsaved : r'.machine.disk = some (saveState r'.machine.mem) := by
      cases op with
      | add c t => exact addChat_saved hcall
      | finish => exact endChat_saved hcall
    rw [hsaved]
    exact construct_saveState _ cap hty hlen hcap
  | false =>
    have hsame : r'.machine = r.machine := by
      cases op with
      | add c t => exact addChat_false hcall
      | finish => exact endChat_false hcall
    rw [hsame]
    exact hre

/-- Run per invocation or in one process, the calls report and leave the same. -/
theorem session_exec {A : List String} (hA : (A.length : Int) < 2147483648)
    (ops : List Op) :
    ∀ r : Run, RunInv 10 A r → construct 10 r.machine.disk = some r.machine.mem →
      ∃ r', exec r ops = some r' ∧ RunInv 10 A r' ∧
        session r.machine r.results ops = some (r'.results, r'.machine) ∧
        construct 10 r'.machine.disk = some r'.machine.mem := by
  induction ops with
  | nil => intro r h hre; exact ⟨r, rfl, h, rfl, hre⟩
  | cons op ops ih =>
    intro r h hre
    obtain ⟨r1, h1, hinv1⟩ := perform_inv h (by decide) op
    obtain ⟨ok, hcall, hres⟩ := perform_call h1
    have hre1 := call_reload 10 (by decide) (by decide) hA hinv1 h1 hre
    obtain ⟨r2, h2, hinv2, hs2, hre2⟩ := ih r1 hinv1 hre1
    refine ⟨r2, by simp only [exec, h1, h2], hinv2, ?_, hre2⟩
    have heta : ({ mem := r.machine.mem, disk := r.machine.disk } : Machine) = r.machine := rfl
    simp only [session, hre, heta, hcall]
    rw [← hres]
    exact hs2

/-- C11 (persistence across invocations is transparent). For every sequence of
add/end commands, beginning with no state file: running each command as an
invocation of its own, which constructs the capacity-10 queue from the file the
previous invocation left and makes the one call, returns the same flags and
exits with the same queue and the same file as making all the calls on one
queue constructed once; and constructing a queue from the final file gives
that same queue state. -/
theorem C11_persistence_transparent (ops : List Op) :
    construct 10 none = some (freshQueue 10) ∧
    ∃ r, exec (start (freshQueue 10) none) ops = some r ∧
      session { mem := freshQueue 10, disk := none } [] ops = some (r.results, r.machine) ∧
      construct 10 r.machine.disk = some r.machine.mem := by
  refine ⟨construct_no_file 10 (by decide), ?_⟩
  obtain ⟨r, hr, _, hs, hre⟩ := session_exec (A := defaultAgents) (by decide) ops
    (start (freshQueue 10) none) (runInv_start 10 defaultAgents (by decide) (by decide) none)
    (construct_no_file 10 (by decide))
  exact ⟨r, hr, hs, hre⟩

/-- The two ways of running `add A`, `add B`, `end`, `end`, `end`, evaluated. -/
theorem persistence_example :
    (session { mem := freshQueue 10, disk := none } []
      [Op.add "A" "t1", Op.add "B" "t2", Op.finish, Op.finish, Op.finish]).map
        (fun p => (p.1, p.2.mem.front, p.2.mem.rear, p.2.mem.size, p.2.mem.nextId))
      = some ([true, true, true, true, false], 2, 1, 0, 3) ∧
    (exec (start (freshQueue 10) none)
      [Op.add "A" "t1", Op.add "B" "t2", Op.finish, Op.finish, Op.finish]).map
        (fun r => (r.results, r.machine.mem.front, r.machine.mem.rear, r.machine.mem.size,
          r.machine.mem.nextId))
      = some ([true, true, true, true, false], 2, 1, 0, 3) := by
  constructor <;> decide

/-! ## Loading a typed snapshot -/

theorem valueInt_typed (ms : List (String × Json)) (key : String) (d : Int)
    (h : intMember ms key = true) :
    ∃ v, (Json.obj ms).valueInt key d = some v ∧
      (findMember key ms = none → v = d) ∧
      (∀ n, findMember key ms = some (Json.num n) → v = n) := by
  unfold intMember at h
  cases hf : findMember key ms with
  | none =>
    exact ⟨d, by simp only [Json.valueInt, hf], fun _ => rfl, fun n hn => Option.noConfusion hn⟩
  | some j =>
    rw [hf] at h
    cases j with
    | num n =>
      have hn : IsInt32 n := of_decide_eq_true h
      refine ⟨n, ?_, fun hnone => Option.noConfusion hnone, ?_⟩
      · simp only [Json.valueInt, hf, Json.getInt, wrapInt_of_range hn.1 hn.2]
      · intro n' hn'
        simp only [Option.some.injEq, Json.num.injEq] at hn'
        exact hn'
    | null => exact Bool.noConfusion h
    | bool b => exact Bool.noConfusion h
    | str s => exact Bool.noConfusion h
    | arr xs => exact Bool.noConfusion h
    | obj fs => exact Bool.noConfusion h

theorem valueString_typed (ms : List (String × Json)) (key : String) (d : String)
    (h : stringMember ms key = true) :
    ∃ v, (Json.obj ms).valueString key d = some v ∧
      (findMember key ms = none → v = d) ∧
      (∀ s, findMember key ms = some (Json.str s) → v = s) := by
  unfold stringMember at h
  cases hf : findMember key ms with
  | none =>
    exact ⟨d, by simp only [Json.valueString, hf], fun _ => rfl,
      fun n hn => Option.noConfusion hn⟩
  | some j =>
    rw [hf] at h
    cases j with
    | str s =>
      refine ⟨s, by simp only [Json.valueString, hf, Json.getString],
        fun hnone => Option.noConfusion hnone, ?_⟩
      intro s' hs'
      simp only [Option.some.injEq, Json.str.injEq] at hs'
      exact hs'
    | null => exact Bool.noConfusion h
    | bool b => exact Bool.noConfusion h
    | num n => exact Bool.noConfusion h
    | arr xs => exact Bool.noConfusion h
    | obj fs => exact Bool.noConfusion h

theorem getStrings_typed (xs : List Json) (h : xs.all isStr = true) :
    ∃ v, getStrings xs = some v := by
  induction xs with
  | nil => exact ⟨[], rfl⟩
  | cons x xs ih =>
    simp only [List.all_cons, Bool.and_eq_true] at h
    obtain ⟨v, hv⟩ := ih h.2
    cases x with
    | str s => exact ⟨s :: v, by simp only [getStrings, Json.getString, hv]⟩
    | null => exact Bool.noConfusion h.1
    | bool b => exact Bool.noConfusion h.1
    | num n => exact Bool.noConfusion h.1
    | arr ys => exact Bool.noConfusion h.1
    | obj fs => exact Bool.noConfusion h.1

theorem valueStringList_typed (ms : List (String × Json)) (d : List String)
    (h : agentsMember ms = true) :
    ∃ v, (Json.obj ms).valueStringList "agents" d = some v ∧
      (findMember "agents" ms = none → v = d) ∧
      (∀ a : List String, findMember "agents" ms = some (Json.arr (a.map Json.str)) →
        v = a) := by
  unfold agentsMember at h
  cases hf : findMember "agents" ms with
  | none =>
    exact ⟨d, by simp only [Json.valueStringList, hf], fun _ => rfl,
      fun n hn => Option.noConfusion hn⟩
  | some j =>
    rw [hf] at h
    cases j with
    | arr xs =>
      obtain ⟨v, hv⟩ := getStrings_typed xs h
      refine ⟨v, by simp only [Json.valueStringList, hf, Json.getStringList, hv],
        fun hnone => Option.noConfusion hnone, ?_⟩
      intro a ha
      simp only [Option.some.injEq, Json.arr.injEq] at ha
      rw [ha, getStrings_map_str] at hv
      exact (Option.some.inj hv).symm
    | null => exact Bool.noConfusion h
    | bool b => exact Bool.noConfusion h
    | num n => exact Bool.noConfusion h
    | str s => exact Bool.noConfusion h
    | obj fs => exact Bool.noConfusion h

/-- A typed slot object loads, each absent member by its default. -/
theorem loadSlot_typed (item : Json) (h : slotTyped item = true) :
    ∃ fs chat, item = Json.obj fs ∧ loadSlot item = some chat ∧
      (findMember "customerName" fs = none → chat.customerName = "") ∧
      (∀ s, findMember "customerName" fs = some (Json.str s) → chat.customerName = s) ∧
      (findMember "agentName" fs = none → chat.agentName = "") ∧
      (∀ s, findMember "agentName" fs = some (Json.str s) → chat.agentName = s) ∧
      (findMember "timestamp" fs = none → chat.timestamp = "") ∧
      (∀ s, findMember "timestamp" fs = some (Json.str s) → chat.timestamp = s) ∧
      (findMember "id" fs = none → chat.id = 0) ∧
      (∀ n, findMember "id" fs = some (Json.num n) → chat.id = n) := by
  cases item with
  | obj fs =>
    simp only [slotTyped, Bool.and_eq_true] at h
    obtain ⟨⟨⟨hc, ha⟩, ht⟩, hi⟩ := h
    obtain ⟨c, hc1, hc2, hc3⟩ := valueString_typed fs "customerName" "" hc
    obtain ⟨a, ha1, ha2, ha3⟩ := valueString_typed fs "agentName" "" ha
    obtain ⟨t, ht1, ht2, ht3⟩ := valueString_typed fs "timestamp" "" ht
    obtain ⟨i, hi1, hi2, hi3⟩ := valueInt_typed fs "id" 0 hi
    exact ⟨fs, { customerName := c, agentName := a, timestamp := t, id := i }, rfl,
      by simp only [loadSlot, hc1, ha1, ht1, hi1], hc2, hc3, ha2, ha3, ht2, ht3, hi2, hi3⟩
  | null => exact Bool.noConfusion h
  | bool b => exact Bool.noConfusion h
  | num n => exact Bool.noConfusion h
  | str s => exact Bool.noConfusion h
  | arr xs => exact Bool.noConfusion h

/-- A list of typed slot objects loads, slot by slot and in order. -/
theorem loadSlots_typed (items : List Json) (h : items.all slotTyped = true) :
    ∃ slots, loadSlots items = some slots ∧ slots.length = items.length ∧
      ∀ (i : Nat) (item : Json), items[i]? = some item →
        ∃ chat, slots[i]? = some chat ∧ loadSlot item = some chat := by
  induction items with
  | nil => exact ⟨[], rfl, rfl, fun i item hi => by simp at hi⟩
  | cons x xs ih =>
    simp only [List.all_cons, Bool.and_eq_true] at h
    obtain ⟨slots, hs, hl, hp⟩ := ih h.2
    obtain ⟨_, chat, _, hchat, _⟩ := loadSlot_typed x h.1
    refine ⟨chat :: slots, by simp only [loadSlots, hchat, hs], by simp [hl], ?_⟩
    intro i item hi
    cases i with
    | zero =>
      simp only [List.getElem?_cons_zero, Option.some.injEq] at hi
      exact ⟨chat, by simp, by rw [← hi]; exact hchat⟩
    | succ k =>
      simp only [List.getElem?_cons_succ] at hi
      obtain ⟨c, hc1, hc2⟩ := hp k item hi
      exact ⟨c, by simpa using hc1, hc2⟩

theorem itemsAt_typed (ms : List (String × Json)) (h : queueMember ms = true) :
    ∃ items, (Json.obj ms).itemsAt "queue" = some items ∧ items.all slotTyped = true ∧
      (findMember "queue" ms = none → items = []) ∧
      (∀ xs, findMember "queue" ms = some (Json.arr xs) → items = xs) := by
  unfold queueMember at h
  cases hf : findMember "queue" ms with
  | none =>
    exact ⟨[], by simp only [Json.itemsAt, hf], rfl, fun _ => rfl,
      fun n hn => Option.noConfusion hn⟩
  | some j =>
    rw [hf] at h
    cases j with
    | arr xs =>
      refine ⟨xs, by simp only [Json.itemsAt, hf], h, fun hnone => Option.noConfusion hnone, ?_⟩
      intro ys hys
      simp only [Option.some.injEq, Json.arr.injEq] at hys
      exact hys
    | null => exact Bool.noConfusion h
    | bool b => exact Bool.noConfusion h
    | num n => exact Bool.noConfusion h
    | str s => exact Bool.noConfusion h
    | obj fs => exact Bool.noConfusion h

/-- Loading a typed snapshot returns; every field is the member's value or, the
member absent, its default. -/
theorem loadState_typed (q : CircularQueue) (ms : List (String × Json))
    (h : snapshotTyped (Json.obj ms) = true) :
    ∃ front rear size capacity cai nextId agents items slots,
      (Json.obj ms).valueInt "front" 0 = some front ∧
      (Json.obj ms).valueInt "rear" (-1) = some rear ∧
      (Json.obj ms).valueInt "size" 0 = some size ∧
      (Json.obj ms).valueInt "capacity" q.capacity = some capacity ∧
      (Json.obj ms).valueInt "currentAgentIndex" 0 = some cai ∧
      (Json.obj ms).valueInt "nextId" 1 = some nextId ∧
      (Json.obj ms).valueStringList "agents" q.agents = some agents ∧
      (Json.obj ms).itemsAt "queue" = some items ∧
      loadSlots items = some slots ∧
      loadState q (some (Json.obj ms)) = some
        { queue := ensureSize slots capacity, front := front, rear := rear, size := size,
          capacity := capacity, agents := agents, currentAgentIndex := cai,
          nextId := nextId } := by
  simp only [snapshotTyped, Bool.and_eq_true] at h
  obtain ⟨⟨⟨⟨⟨⟨⟨h1, h2⟩, h3⟩, h4⟩, h5⟩, h6⟩, h7⟩, h8⟩ := h
  obtain ⟨front, e1, _⟩ := valueInt_typed ms "front" 0 h1
  obtain ⟨rear, e2, _⟩ := valueInt_typed ms "rear" (-1) h2
  obtain ⟨size, e3, _⟩ := valueInt_typed ms "size" 0 h3
  obtain ⟨capacity, e4, _⟩ := valueInt_typed ms "capacity" q.capacity h4
  obtain ⟨cai, e5, _⟩ := valueInt_typed ms "currentAgentIndex" 0 h5
  obtain ⟨nextId, e6, _⟩ := valueInt_typed ms "nextId" 1 h6
  obtain ⟨agents, e7, _⟩ := valueStringList_typed ms q.agents h7
  obtain ⟨items, e8, hall, _⟩ := itemsAt_typed ms h8
  obtain ⟨slots, e9, _⟩ := loadSlots_typed items hall
  exact ⟨front, rear, size, capacity, cai, nextId, agents, items, slots, e1, e2, e3, e4, e5,
    e6, e7, e8, e9, by simp only [loadState, e1, e2, e3, e4, e5, e6, e7, e8, e9]⟩

/-! ## What a completed load has read -/

theorem valueInt_some {ms : List (String × Json)} {key : String} {d v : Int}
    (h : (Json.obj ms).valueInt key d = some v) :
    (findMember key ms = none → v = d) ∧
    (∀ n, findMember key ms = some (Json.num n) → v = wrapInt n) := by
  simp only [Json.valueInt] at h
  constructor
  · intro hf
    rw [hf] at h
    exact (Option.some.inj h).symm
  · intro n hf
    rw [hf] at h
    exact (Option.some.inj h).symm

theorem valueString_some {ms : List (String × Json)} {key : String} {d v : String}
    (h : (Json.obj ms).valueString key d = some v) :
    (findMember key ms = none → v = d) ∧
    (∀ s, findMember key ms = some (Json.str s) → v = s) := by
  simp only [Json.valueString] at h
  constructor
  · intro hf
    rw [hf] at h
    exact (Option.some.inj h).symm
  · intro s hf
    rw [hf] at h
    exact (Option.some.inj h).symm

theorem valueStringList_some {ms : List (String × Json)} {key : String} {d v : List String}
    (h : (Json.obj ms).valueStringList key d = some v) :
    (findMember key ms = none → v = d) ∧
    (∀ a : List String, findMember key ms = some (Json.arr (a.map Json.str)) → v = a) := by
  simp only [Json.valueStringList] at h
  constructor
  · intro hf
    rw [hf] at h
    exact (Option.some.inj h).symm
  · intro a hf
    rw [hf] at h
    simp only [Json.getStringList, getStrings_map_str] at h
    exact (Option.some.inj h).symm

theorem itemsAt_some {ms : List (String × Json)} {items : List Json}
    (h : (Json.obj ms).itemsAt "queue" = some items) :
    (findMember "queue" ms = none → items = []) ∧
    (∀ xs, findMember "queue" ms = some (Json.arr xs) → items = xs) := by
  simp only [Json.itemsAt] at h
  constructor
  · intro hf
    rw [hf] at h
    exact (Option.some.inj h).symm
  · intro xs hf
    rw [hf] at h
    exact (Option.some.inj h).symm

/-- A slot that loaded was an object; each member absent from it is defaulted. -/
theorem loadSlot_some {item : Json} {chat : ChatRequest} (h : loadSlot item = some chat) :
    ∃ fs, item = Json.obj fs ∧
      (findMember "customerName" fs = none → chat.customerName = "") ∧
      (∀ s, findMember "customerName" fs = some (Json.str s) → chat.customerName = s) ∧
      (findMember "agentName" fs = none → chat.agentName = "") ∧
      (∀ s, findMember "agentName" fs = some (Json.str s) → chat.agentName = s) ∧
      (findMember "timestamp" fs = none → chat.timestamp = "") ∧
      (∀ s, findMember "timestamp" fs = some (Json.str s) → chat.timestamp = s) ∧
      (findMember "id" fs = none → chat.id = 0) ∧
      (∀ n, findMember "id" fs = some (Json.num n) → chat.id = wrapInt n) := by
  unfold loadSlot at h
  split at h
  · next c a t i hc ha ht hi =>
    simp only [Option.some.injEq] at h
    cases item with
    | obj fs =>
      have h1 := valueString_some hc
      have h2 := valueString_some ha
      have h3 := valueString_some ht
      have h4 := valueInt_some hi
      rw [← h]
      exact ⟨fs, rfl, h1.1, h1.2, h2.1, h2.2, h3.1, h3.2, h4.1, h4.2⟩
    | null => simp [Json.valueString] at hc
    | bool b => simp [Json.valueString] at hc
    | num n => simp [Json.valueString] at hc
    | str s => simp [Json.valueString] at hc
    | arr xs => simp [Json.valueString] at hc
  · exact Option.noConfusion h

/-- The slots that loaded are as many as were stored, each read from its item. -/
theorem loadSlots_some : ∀ {items : List Json} {slots : List ChatRequest},
    loadSlots items = some slots →
    slots.length = items.length ∧
      ∀ (i : Nat) (item : Json), items[i]? = some item →
        ∃ chat, slots[i]? = some chat ∧ loadSlot item = some chat := by
  intro items
  induction items with
  | nil =>
    intro slots h
    simp only [loadSlots, Option.some.injEq] at h
    rw [← h]
    exact ⟨rfl, fun i item hi => by simp at hi⟩
  | cons x xs ih =>
    intro slots h
    unfold loadSlots at h
    split at h
    · next chat chats hchat hchats =>
      simp only [Option.some.injEq] at h
      obtain ⟨hl, hp⟩ := ih hchats
      rw [← h]
      refine ⟨by simp [hl], ?_⟩
      intro i item hi
      cases i with
      | zero =>
        simp only [List.getElem?_cons_zero, Option.some.injEq] at hi
        exact ⟨chat, by simp, by rw [← hi]; exact hchat⟩
      | succ k =>
        simp only [List.getElem?_cons_succ] at hi
        obtain ⟨c, hc1, hc2⟩ := hp k item hi
        exact ⟨c, by simpa using hc1, hc2⟩
    · exact Option.noConfusion h

/-- What a load that returned has read from the document. -/
theorem loadState_some {q q' : CircularQueue} {j : Json}
    (h : loadState q (some j) = some q') :
    ∃ front rear size capacity cai nextId agents items slots,
      j.valueInt "front" 0 = some front ∧
      j.valueInt "rear" (-1) = some rear ∧
      j.valueInt "size" 0 = some size ∧
      j.valueInt "capacity" q.capacity = some capacity ∧
      j.valueInt "currentAgentIndex" 0 = some cai ∧
      j.valueInt "nextId" 1 = some nextId ∧
      j.valueStringList "agents" q.agents = some agents ∧
      j.itemsAt "queue" = some items ∧
      loadSlots items = some slots ∧
      q' = { queue := ensureSize slots capacity, front := front, rear := rear, size := size,
             capacity := capacity, agents := agents, currentAgentIndex := cai,
             nextId := nextId } := by
  simp only [loadState] at h
  split at h
  · next front rear size capacity cai nextId agents e1 e2 e3 e4 e5 e6 e7 =>
    split at h
    · exact Option.noConfusion h
    · next items e8 =>
      split at h
      · exact Option.noConfusion h
      · next slots e9 =>
        simp only [Option.some.injEq] at h
        exact ⟨front, rear, size, capacity, cai, nextId, agents, items, slots, e1, e2, e3, e4,
          e5, e6, e7, e8, e9, h.symm⟩
  · exact Option.noConfusion h

theorem construct_some {cap : Int} {q' : CircularQueue} {j : Json}
    (h : construct cap (some j) = some q') :
    0 ≤ cap ∧ loadState (freshQueue cap) (some j) = some q' := by
  unfold construct at h
  split at h
  · exact Option.noConfusion h
  · exact ⟨by omega, h⟩

theorem ensureSize_nil (capacity : Int) :
    ensureSize [] capacity = List.replicate capacity.toNat ChatRequest.empty := by
  unfold ensureSize
  by_cases hc : (0 : Int) < capacity
  · simp [hc]
  · have h0 : capacity.toNat = 0 := by omega
    simp [hc, h0]

theorem ensureSize_eq (queue : List ChatRequest) (capacity : Int) :
    ensureSize queue capacity
      = queue ++ List.replicate (capacity.toNat - queue.length) ChatRequest.empty := by
  unfold ensureSize
  by_cases hc : (queue.length : Int) < capacity
  · rw [if_pos hc]
  · rw [if_neg hc]
    have h0 : capacity.toNat - queue.length = 0 := by omega
    simp [h0]

/-- C12 (load defaults). A queue constructed with capacity `cap ≥ 0` and no state
file is the initial empty queue, and so is one constructed from the empty object.
From a JSON object typed as the file format says the constructor returns a queue;
and in every queue it returns from a JSON object, each member absent from the
object has its default: `front = 0`, `rear = -1`, `size = 0`,
`currentAgentIndex = 0`, `nextId = 1`, `capacity = cap`, the five default agents,
and a slot array of empty records only. -/
theorem C12_load_defaults (cap : Int) (hcap : 0 ≤ cap) (ms : List (String × Json)) :
    construct cap none = some (freshQueue cap) ∧
    construct cap (some (Json.obj [])) = some (freshQueue cap) ∧
    (snapshotTyped (Json.obj ms) = true →
      ∃ q', construct cap (some (Json.obj ms)) = some q') ∧
    ∀ q', construct cap (some (Json.obj ms)) = some q' →
      (findMember "front" ms = none → q'.front = 0) ∧
      (findMember "rear" ms = none → q'.rear = -1) ∧
      (findMember "size" ms = none → q'.size = 0) ∧
      (findMember "currentAgentIndex" ms = none → q'.currentAgentIndex = 0) ∧
      (findMember "nextId" ms = none → q'.nextId = 1) ∧
      (findMember "capacity" ms = none → q'.capacity = cap) ∧
      (findMember "agents" ms = none → q'.agents = defaultAgents) ∧
      (findMember "queue" ms = none →
        q'.queue = List.replicate q'.capacity.toNat ChatRequest.empty) := by
  have hempty : construct cap (some (Json.obj [])) = some (freshQueue cap) := by
    unfold construct
    rw [if_neg (by omega)]
    simp [loadState, Json.valueInt, Json.valueStringList, Json.itemsAt, findMember,
      loadSlots, ensureSize_nil, freshQueue]
  refine ⟨construct_no_file cap hcap, hempty, ?_, ?_⟩
  · intro hty
    obtain ⟨front, rear, size, capacity, cai, nextId, agents, items, slots, _, _, _, _, _, _,
      _, _, _, hl⟩ := loadState_typed (freshQueue cap) ms hty
    have hc : construct cap (some (Json.obj ms))
        = loadState (freshQueue cap) (some (Json.obj ms)) := by
      unfold construct
      rw [if_neg (by omega)]
    exact ⟨_, hc.trans hl⟩
  · intro q' hq'
    obtain ⟨_, hload⟩ := construct_some hq'
    obtain ⟨front, rear, size, capacity, cai, nextId, agents, items, slots, e1, e2, e3, e4,
      e5, e6, e7, e8, e9, hq⟩ := loadState_some hload
    subst hq
    refine ⟨(valueInt_some e1).1, (valueInt_some e2).1, (valueInt_some e3).1,
      (valueInt_some e5).1, (valueInt_some e6).1, (valueInt_some e4).1,
      (valueStringList_some e7).1, ?_⟩
    intro hnone
    have hitems := (itemsAt_some e8).1 hnone
    subst hitems
    simp only [loadSlots, Option.some.injEq] at e9
    subst e9
    exact ensureSize_nil capacity

/-- C12 at capacity 10 and the snapshot `{"nextId": 7}`. -/
theorem C12_load_defaults_witness :
    (0 : Int) ≤ 10 ∧ snapshotTyped (Json.obj [("nextId", Json.num 7)]) = true ∧
    construct 10 none = some (freshQueue 10) ∧
    construct 10 (some (Json.obj [])) = some (freshQueue 10) ∧
    ∃ q', construct 10 (some (Json.obj [("nextId", Json.num 7)])) = some q' ∧
      q'.front = 0 ∧ q'.rear = -1 ∧ q'.size = 0 ∧ q'.currentAgentIndex = 0 ∧
      q'.capacity = 10 ∧ q'.agents = defaultAgents ∧
      q'.queue = List.replicate q'.capacity.toNat ChatRequest.empty := by
  obtain ⟨h1, h2, h3, h4⟩ := C12_load_defaults 10 (by decide) [("nextId", Json.num 7)]
  obtain ⟨q', hq'⟩ := h3 (by decide)
  obtain ⟨g1, g2, g3, g4, _, g6, g7, g8⟩ := h4 q' hq'
  exact ⟨by decide, by decide, h1, h2, q', hq', g1 rfl, g2 rfl, g3 rfl, g4 rfl, g6 rfl,
    g7 rfl, g8 rfl⟩

/-- C13 (load pads the slot array). For a snapshot object whose `queue` member is
a list of `n` items, loaded into any queue object: the load returns when the
snapshot is typed as the file format says; and whenever it returns, with
capacity `c` afterwards, the slot array is the `n` stored slots in order followed
by `c - n` empty records (none when `c ≤ n`), so for `c ≥ 0` its length is
`max(n, c)`; a stored slot is read from its item with an absent `customerName`,
`agentName` or `timestamp` as the empty string and an absent `id` as 0. -/
theorem C13_load_pads (q : CircularQueue) (ms : List (String × Json)) (items : List Json)
    (hqueue : findMember "queue" ms = some (Json.arr items)) :
    (snapshotTyped (Json.obj ms) = true → ∃ q', loadState q (some (Json.obj ms)) = some q') ∧
    ∀ q', loadState q (some (Json.obj ms)) = some q' →
      ∃ slots, loadSlots items = some slots ∧ slots.length = items.length ∧
        q'.queue = slots
          ++ List.replicate (q'.capacity.toNat - items.length) ChatRequest.empty ∧
        (0 ≤ q'.capacity →
          (q'.queue.length : Int) = max (items.length : Int) q'.capacity) ∧
        q'.queue.take items.length = slots ∧
        (∀ chat ∈ q'.queue.drop items.length,
          chat.customerName = "" ∧ chat.agentName = "" ∧ chat.timestamp = "" ∧
            chat.id = 0) ∧
        ∀ (i : Nat) (item : Json), items[i]? = some item →
          ∃ fs chat, item = Json.obj fs ∧ q'.queue[i]? = some chat ∧
            (findMember "customerName" fs = none → chat.customerName = "") ∧
            (∀ s, findMember "customerName" fs = some (Json.str s) →
              chat.customerName = s) ∧
            (findMember "agentName" fs = none → chat.agentName = "") ∧
            (∀ s, findMember "agentName" fs = some (Json.str s) → chat.agentName = s) ∧
            (findMember "timestamp" fs = none → chat.timestamp = "") ∧
            (∀ s, findMember "timestamp" fs = some (Json.str s) → chat.timestamp = s) ∧
            (findMember "id" fs = none → chat.id = 0) ∧
            (∀ n, findMember "id" fs = some (Json.num n) → chat.id = wrapInt n) := by
  constructor
  · intro hty
    obtain ⟨front, rear, size, capacity, cai, nextId, agents, items', slots, _, _, _, _, _, _,
      _, _, _, hl⟩ := loadState_typed q ms hty
    exact ⟨_, hl⟩
  · intro q' hq'
    obtain ⟨front, rear, size, capacity, cai, nextId, agents, items', slots, e1, e2, e3, e4,
      e5, e6, e7, e8, e9, hq⟩ := loadState_some hq'
    subst hq
    have hitems := (itemsAt_some e8).2 items hqueue
    subst hitems
    obtain ⟨hlen, hpoint⟩ := loadSlots_some e9
    have hqueue' : ensureSize slots capacity
        = slots ++ List.replicate (capacity.toNat - items'.length) ChatRequest.empty := by
      rw [ensureSize_eq, hlen]
    refine ⟨slots, e9, hlen, hqueue', ?_, ?_, ?_, ?_⟩
    · intro hc
      show ((ensureSize slots capacity).length : Int) = _
      rw [hqueue']
      simp only [List.length_append, List.length_replicate, hlen]
      omega
    · show (ensureSize slots capacity).take items'.length = slots
      rw [hqueue', ← hlen, List.take_left']
      rfl
    · intro chat hmem
      have hd : (ensureSize slots capacity).drop items'.length
          = List.replicate (capacity.toNat - items'.length) ChatRequest.empty := by
        rw [hqueue', ← hlen, List.drop_left']
        rfl
      have hmem' : chat ∈ List.replicate (capacity.toNat - items'.length) ChatRequest.empty := by
        rw [← hd]; exact hmem
      rw [List.eq_of_mem_replicate hmem']
      exact ⟨rfl, rfl, rfl, rfl⟩
    · intro i item hi
      obtain ⟨chat, hchat, hload⟩ := hpoint i item hi
      obtain ⟨fs, hfs, hrest⟩ := loadSlot_some hload
      refine ⟨fs, chat, hfs, ?_, hrest⟩
      show (ensureSize slots capacity)[i]? = some chat
      have hi' : i < slots.length := by
        by_contra hge
        rw [List.getElem?_eq_none (by omega)] at hchat
        exact Option.noConfusion hchat
      rw [hqueue', List.getElem?_append_left hi']
      exact hchat

/-- C13 at a snapshot that stores two slots under capacity 4, the second slot
without `customerName` and `id`. -/
theorem C13_load_pads_witness :
    findMember "queue" shortSnapshot = some (Json.arr
      [Json.obj [("agentName", Json.str "Agent Alice"), ("customerName", Json.str "A"),
                 ("id", Json.num 1), ("timestamp", Json.str "t1")],
       Json.obj [("agentName", Json.str "Agent Bob"), ("timestamp", Json.str "t2")]]) ∧
    snapshotTyped (Json.obj shortSnapshot) = true ∧
    ∃ q', loadState (freshQueue 10) (some (Json.obj shortSnapshot)) = some q' ∧
      q'.capacity = 4 ∧
      q'.queue = [ChatRequest.create "A" "Agent Alice" 1 "t1",
                  ChatRequest.create "" "Agent Bob" 0 "t2",
                  ChatRequest.empty, ChatRequest.empty] ∧
      ∃ slots, slots.length = 2 ∧
        q'.queue = slots ++ List.replicate (q'.capacity.toNat - 2) ChatRequest.empty ∧
        q'.queue.take 2 = slots := by
  obtain ⟨h1, h2⟩ := C13_load_pads (freshQueue 10) shortSnapshot
    [Json.obj [("agentName", Json.str "Agent Alice"), ("customerName", Json.str "A"),
               ("id", Json.num 1), ("timestamp", Json.str "t1")],
     Json.obj [("agentName", Json.str "Agent Bob"), ("timestamp", Json.str "t2")]] rfl
  obtain ⟨q', hq'⟩ := h1 (by decide)
  obtain ⟨slots, _, hlen, hq, _, htake, _, _⟩ := h2 q' hq'
  have hval : loadState (freshQueue 10) (some (Json.obj shortSnapshot))
      = some { queue := [ChatRequest.create "A" "Agent Alice" 1 "t1",
                         ChatRequest.create "" "Agent Bob" 0 "t2",
                         ChatRequest.empty, ChatRequest.empty],
               front := 0, rear := -1, size := 2, capacity := 4, agents := defaultAgents,
               currentAgentIndex := 0, nextId := 1 } := by decide
  rw [hq'] at hval
  have hq'' := Option.some.inj hval
  refine ⟨rfl, by decide, q', hq', by rw [hq''], by rw [hq''], slots, hlen, hq, htake⟩

/-- No record a run from the freshly constructed queue created is the empty
record: each carries the name of one of the five agents. -/
theorem empty_not_created {C : Int} (hC : 0 ≤ C) {ops : List Op} {r : Run}
    (hr : exec (start (freshQueue C) none) ops = some r) :
    ChatRequest.empty ∉ r.created := by
  by_cases h0 : C = 0
  · subst h0
    obtain ⟨r', hr', _, hcr, _⟩ := exec_capacity_zero ops (start (freshQueue 0) none) rfl rfl
    rw [hr] at hr'
    rw [Option.some.inj hr', hcr]
    simp [start]
  · obtain ⟨r', hr', hinv⟩ := exec_inv (by omega : 1 ≤ C) ops _
      (runInv_start C defaultAgents (by omega) (by decide) none)
    rw [emptyQueue_default, hr] at hr'
    rw [Option.some.inj hr']
    intro hmem
    have hname : "" ∈ r'.created.map (fun chat => chat.agentName) :=
      List.mem_map.mpr ⟨ChatRequest.empty, hmem, rfl⟩
    rw [hinv.names] at hname
    obtain ⟨k, _, hk⟩ := List.mem_map.mp hname
    have hlt : k % defaultAgents.length < defaultAgents.length :=
      Nat.mod_lt _ (by decide)
    rw [List.getD_eq_getElem _ _ hlt] at hk
    have hin : defaultAgents[k % defaultAgents.length] ∈ defaultAgents :=
      List.getElem_mem hlt
    rw [hk] at hin
    exact absurd hin (by decide)

/-- C17 (padding on load can desynchronize the cursors from the slots). The
snapshots `{"capacity": 10, "size": 1}` and `{"capacity": 10, "queue": [],
"size": 1}` are typed as the file format says and store fewer slots than their
capacity; the constructor loads each without error, and the one active chat of
the queue it returns is an empty padding record (id 0, empty names and
timestamp), a record that no `addChat` of any run from a freshly constructed
queue created. -/
theorem C17_padding_desynchronizes :
    snapshotTyped paddedSnapshot = true ∧
    snapshotTyped paddedSnapshotEmptyList = true ∧
    paddedSnapshot.itemsAt "queue" = some [] ∧
    paddedSnapshotEmptyList.itemsAt "queue" = some [] ∧
    construct 10 (some paddedSnapshotEmptyList) = construct 10 (some paddedSnapshot) ∧
    (∃ q, construct 10 (some paddedSnapshot) = some q ∧
      q.capacity = 10 ∧ q.size = 1 ∧ q.front = 0 ∧ q.rear = -1 ∧
      activeChats q = some [ChatRequest.empty] ∧
      (listChats { mem := q, disk := some paddedSnapshot }).map Prod.fst
        = some ["Active Chats:", "ID | Customer | Agent | Timestamp",
                "---|----------|-------|----------", "0 |  |  | "]) ∧
    ChatRequest.empty
      = { customerName := "", agentName := "", timestamp := "", id := 0 } ∧
    ∀ (C : Int) (ops : List Op) (r : Run), 0 ≤ C →
      exec (start (freshQueue C) none) ops = some r → ChatRequest.empty ∉ r.created := by
  refine ⟨by decide, by decide, rfl, rfl, by decide, ?_, rfl,
    fun C ops r hC hr => empty_not_created hC hr⟩
  have hq : construct 10 (some paddedSnapshot)
      = some { freshQueue 10 with size := 1 } := by decide
  exact ⟨_, hq, rfl, rfl, rfl, rfl, by decide, by decide⟩

/-- C17's last part at the run `add A`, `add B`, `end` on capacity 10. -/
theorem C17_padding_desynchronizes_witness :
    (0 : Int) ≤ 10 ∧
    ∃ r, exec (start (freshQueue 10) none) [Op.add "A" "t1", Op.add "B" "t2", Op.finish]
        = some r ∧ ChatRequest.empty ∉ r.created := by
  obtain ⟨r, hr, _⟩ := exec_inv (C := 10) (A := defaultAgents) (by decide)
    [Op.add "A" "t1", Op.add "B" "t2", Op.finish] (start (freshQueue 10) none)
    (runInv_start 10 defaultAgents (by decide) (by decide) none)
  exact ⟨by decide, r, hr,
    C17_padding_desynchronizes.2.2.2.2.2.2.2 10 _ r (by decide) hr⟩

/-- C20 (the persisted capacity and agents override the constructor's). For a
queue constructed with any `cap ≥ 0` from a snapshot object: construction
returns when the snapshot is typed as the file format says; and in every queue
it returns, a `capacity` member `c'` (an `int`) is the capacity, whatever `cap`
is, and `isFull` compares the size against `c'`; an `agents` member `a'` is the
agent list, whatever the default list; `cap` and the default agents are used
only when the member is absent. -/
theorem C20_snapshot_overrides (cap : Int) (hcap : 0 ≤ cap) (ms : List (String × Json)) :
    (snapshotTyped (Json.obj ms) = true →
      ∃ q', construct cap (some (Json.obj ms)) = some q') ∧
    ∀ q', construct cap (some (Json.obj ms)) = some q' →
      (∀ c', findMember "capacity" ms = some (Json.num c') → IsInt32 c' →
        q'.capacity = c' ∧ isFull q' = (q'.size == c')) ∧
      (∀ a' : List String, findMember "agents" ms = some (Json.arr (a'.map Json.str)) →
        q'.agents = a') ∧
      (findMember "capacity" ms = none → q'.capacity = cap) ∧
      (findMember "agents" ms = none → q'.agents = defaultAgents) := by
  constructor
  · intro hty
    obtain ⟨front, rear, size, capacity, cai, nextId, agents, items, slots, _, _, _, _, _, _,
      _, _, _, hl⟩ := loadState_typed (freshQueue cap) ms hty
    have hc : construct cap (some (Json.obj ms))
        = loadState (freshQueue cap) (some (Json.obj ms)) := by
      unfold construct
      rw [if_neg (by omega)]
    exact ⟨_, hc.trans hl⟩
  · intro q' hq'
    obtain ⟨_, hload⟩ := construct_some hq'
    obtain ⟨front, rear, size, capacity, cai, nextId, agents, items, slots, e1, e2, e3, e4,
      e5, e6, e7, e8, e9, hq⟩ := loadState_some hload
    subst hq
    refine ⟨?_, (valueStringList_some e7).2, (valueInt_some e4).1,
      (valueStringList_some e7).1⟩
    intro c' hc' hint
    have hcap' : capacity = c' := by
      rw [(valueInt_some e4).2 c' hc']
      exact wrapInt_of_range hint.1 hint.2
    exact ⟨hcap', by simp only [isFull, hcap']⟩

/-- C20 at the snapshot `{"agents": ["Zed"], "capacity": 3}` and a constructor
capacity of 10. -/
theorem C20_snapshot_overrides_witness :
    (0 : Int) ≤ 10 ∧ snapshotTyped (Json.obj overridingSnapshot) = true ∧
    findMember "capacity" overridingSnapshot = some (Json.num 3) ∧ IsInt32 3 ∧
    findMember "agents" overridingSnapshot = some (Json.arr (["Zed"].map Json.str)) ∧
    ∃ q', construct 10 (some (Json.obj overridingSnapshot)) = some q' ∧
      q'.capacity = 3 ∧ isFull q' = (q'.size == 3) ∧ q'.agents = ["Zed"] := by
  obtain ⟨h1, h2⟩ := C20_snapshot_overrides 10 (by decide) overridingSnapshot
  obtain ⟨q', hq'⟩ := h1 (by decide)
  obtain ⟨g1, g2, _, _⟩ := h2 q' hq'
  obtain ⟨g3, g4⟩ := g1 3 rfl (by decide)
  exact ⟨by decide, by decide, rfl, by decide, rfl, q', hq', g3, g4, g2 ["Zed"] rfl⟩

/-! ## Status output and the frame of `endChat` -/

set_option maxRecDepth 100000

/-- The status of a queue that meets the invariant: no fault, the ring slots,
the machine untouched. -/
theorem getJsonStatus_eq {C : Int} {A : List String} {m : Machine} (h : Inv C A m.mem)
    (hC : 1 ≤ C) :
    getJsonStatus m
      = some (statusText m.mem ((List.range' 0 m.mem.size.toNat).map (ring m.mem)), m) := by
  unfold getJsonStatus
  rw [activeChats_eq h hC]

/-- C14 (status snapshot content). From the initial queue of capacity `C ≥ 0`,
every sequence of calls returns, and in the state it reaches `getJsonStatus`
returns the text with `totalChats` the size, `capacity` the capacity, `chats`
the active chats oldest first (exactly `size` entries, entry `i` the id,
customer name, agent name and timestamp of slot `(front + i) mod capacity`) and
`agents` the whole agent list in order; the queue object and the state file are
the same afterwards. -/
theorem C14_status_content (C : Int) (hC : 0 ≤ C) (ops : List Op) :
    ∃ r chats, exec (start (freshQueue C) none) ops = some r ∧
      activeChats r.machine.mem = some chats ∧
      (chats.length : Int) = r.machine.mem.size ∧
      (∀ (i : Nat) (chat : ChatRequest), chats[i]? = some chat →
        slotAt r.machine.mem.queue
          ((r.machine.mem.front + (i : Int)) % r.machine.mem.capacity) = some chat) ∧
      getJsonStatus r.machine = some
        ("\x7b" ++ "\"totalChats\":" ++ showInt r.machine.mem.size ++ ","
          ++ "\"capacity\":" ++ showInt r.machine.mem.capacity ++ ","
          ++ "\"chats\":[" ++ emitAll true (chats.map (fun chat =>
              "\x7b" ++ "\"id\":" ++ showInt chat.id ++ ","
                ++ "\"customerName\":\"" ++ chat.customerName ++ "\","
                ++ "\"agentName\":\"" ++ chat.agentName ++ "\","
                ++ "\"timestamp\":\"" ++ chat.timestamp ++ "\"" ++ "\x7d")) ++ "],"
          ++ "\"agents\":[" ++ emitAll true (r.machine.mem.agents.map (fun agent =>
              "\"" ++ agent ++ "\"")) ++ "]" ++ "\x7d",
         r.machine) := by
  by_cases h0 : C = 0
  · subst h0
    obtain ⟨r, hr, hm, _, _⟩ := exec_capacity_zero ops (start (freshQueue 0) none) rfl rfl
    have hact : activeChats r.machine.mem = some [] := by rw [hm]; rfl
    refine ⟨r, [], hr, hact, by rw [hm]; rfl, fun i chat hi => by simp at hi, ?_⟩
    unfold getJsonStatus
    rw [hact]
    rfl
  · have hC1 : 1 ≤ C := by omega
    obtain ⟨r, hr, hinv⟩ := exec_inv hC1 ops _
      (runInv_start C defaultAgents hC1 (by decide) none)
    have hi := hinv.inv
    have hact := activeChats_eq hi hC1
    refine ⟨r, _, hr, hact, ?_, ?_, ?_⟩
    · simp only [List.length_map, List.length_range']
      have := hi.size_lo
      omega
    · intro i chat hchat
      have hlt : i < r.machine.mem.size.toNat := by
        by_contra hge
        rw [List.getElem?_eq_none (by simp; omega)] at hchat
        exact Option.noConfusion hchat
      rw [List.getElem?_map, List.getElem?_range' _ _ hlt] at hchat
      simp only [Option.map_some', Option.some.injEq, Nat.one_mul, Nat.zero_add] at hchat
      have h1 : (0 : Int) ≤ (r.machine.mem.front + (i : Int)) % r.machine.mem.capacity :=
        Int.emod_nonneg _ (by rw [hi.cap]; omega)
      have h2 : (r.machine.mem.front + (i : Int)) % r.machine.mem.capacity
          < r.machine.mem.capacity := Int.emod_lt_of_pos _ (by rw [hi.cap]; omega)
      have h3 : ((r.machine.mem.front + (i : Int)) % r.machine.mem.capacity).toNat
          < r.machine.mem.queue.length := by
        have := hi.len; have := hi.cap; omega
      rw [slotAt_eq_getElem? _ h1, List.getElem?_eq_getElem h3, ← hchat]
      unfold ring
      rw [List.getD_eq_getElem _ _ h3]
    · unfold getJsonStatus
      rw [hact]
      rfl

/-- C14 on the scenario of the specification: capacity 10, after add, add, end
the status reports `totalChats` 1, `capacity` 10, the one chat with id 2 and
the five agent names, and the machine is as before. -/
theorem C14_status_content_witness :
    (0 : Int) ≤ 10 ∧
    (∃ r chats, exec (start (freshQueue 10) none)
        [Op.add "A" "t1", Op.add "B" "t2", Op.finish] = some r ∧
      activeChats r.machine.mem = some chats ∧
      (chats.length : Int) = r.machine.mem.size ∧
      getJsonStatus r.machine = some
        ("\x7b" ++ "\"totalChats\":" ++ showInt r.machine.mem.size ++ ","
          ++ "\"capacity\":" ++ showInt r.machine.mem.capacity ++ ","
          ++ "\"chats\":[" ++ emitAll true (chats.map (fun chat =>
              "\x7b" ++ "\"id\":" ++ showInt chat.id ++ ","
                ++ "\"customerName\":\"" ++ chat.customerName ++ "\","
                ++ "\"agentName\":\"" ++ chat.agentName ++ "\","
                ++ "\"timestamp\":\"" ++ chat.timestamp ++ "\"" ++ "\x7d")) ++ "],"
          ++ "\"agents\":[" ++ emitAll true (r.machine.mem.agents.map (fun agent =>
              "\"" ++ agent ++ "\"")) ++ "]" ++ "\x7d",
         r.machine)) ∧
    ((exec (start (freshQueue 10) none) [Op.add "A" "t1", Op.add "B" "t2", Op.finish]).bind
        (fun r => getJsonStatus r.machine)).map Prod.fst
      = some ("\x7b\"totalChats\":1,\"capacity\":10,\"chats\":[\x7b\"id\":2,"
          ++ "\"customerName\":\"B\",\"agentName\":\"Agent Bob\",\"timestamp\":\"t2\"\x7d],"
          ++ "\"agents\":[\"Agent Alice\",\"Agent Bob\",\"Agent Charlie\",\"Agent Diana\","
          ++ "\"Agent Eve\"]\x7d") := by
  obtain ⟨r, chats, hr, hact, hlen, _, hjson⟩ := C14_status_content 10 (by decide)
    [Op.add "A" "t1", Op.add "B" "t2", Op.finish]
  exact ⟨by decide, ⟨r, chats, hr, hact, hlen, hjson⟩, by decide⟩

/-- C15 as stated fails: the state with `front = -5` and `size = 1` (as a
snapshot may hold it) has `size > 0` and `capacity ≥ 1`; `endChat` returns true
and leaves `front' = -4`, the truncated remainder of `-4` by 10, while
`(front + 1) mod capacity` is 6. And at `front = 2^31 - 1` the `int` sum
`front + 1` of the code is `-2^31`, whose remainder by 10 is -8, not the
residue 8. -/
theorem C15_endChat_postcondition_counterexample :
    0 < frontBelowRange.mem.size ∧ 1 ≤ frontBelowRange.mem.capacity ∧
    (endChat frontBelowRange).map (fun p => (p.1, p.2.mem.front)) = some (true, -4) ∧
    (frontBelowRange.mem.front + 1) % frontBelowRange.mem.capacity = 6 ∧
    cRem (frontBelowRange.mem.front + 1) frontBelowRange.mem.capacity = some (-4) ∧
    (wrapInt (2147483647 + 1) = -2147483648 ∧
      cRem (wrapInt (2147483647 + 1)) 10 = some (-8) ∧
      ((2147483647 : Int) + 1) % 10 = 8) := by
  refine ⟨by decide, by decide, by decide, by decide, by decide,
    ⟨by decide, by decide, by decide⟩⟩

/-- C15, amended (`endChat` success postcondition and frame). For every state
with `size > 0`, `capacity ≥ 1` and in addition `-1 ≤ front < 2^31 - 1`:
`endChat` returns true, `front' = (front + 1) mod capacity`, which lies in
`[0, capacity)` and is what the `int` arithmetic of the code gives,
`size' = size - 1`, and `rear`, `capacity`, `currentAgentIndex`, `nextId`, the
agent list and the whole slot array, the dequeued record included, are
unchanged. The new state is saved. -/
theorem C15_endChat_postcondition (m : Machine) (hsize : 0 < m.mem.size)
    (hcap : 1 ≤ m.mem.capacity) (hfront0 : -1 ≤ m.mem.front)
    (hfront1 : m.mem.front < 2147483647) :
    ∃ m', endChat m = some (true, m') ∧
      m'.mem.front = (m.mem.front + 1) % m.mem.capacity ∧
      m'.mem.front = Int.tmod (wrapInt (m.mem.front + 1)) m.mem.capacity ∧
      0 ≤ m'.mem.front ∧ m'.mem.front < m.mem.capacity ∧
      m'.mem.size = m.mem.size - 1 ∧
      m'.mem.rear = m.mem.rear ∧ m'.mem.capacity = m.mem.capacity ∧
      m'.mem.currentAgentIndex = m.mem.currentAgentIndex ∧
      m'.mem.nextId = m.mem.nextId ∧ m'.mem.agents = m.mem.agents ∧
      m'.mem.queue = m.mem.queue ∧
      m'.disk = some (saveState m'.mem) := by
  have hend : endChat m = some (true,
      { mem := { m.mem with front := (m.mem.front + 1) % m.mem.capacity,
                            size := m.mem.size - 1 },
        disk := some (saveState
          { m.mem with front := (m.mem.front + 1) % m.mem.capacity,
                       size := m.mem.size - 1 }) }) := by
    unfold endChat isEmpty
    rw [if_neg (by simp; omega), cRem_of_nonneg (by omega) (by omega)]
  refine ⟨_, hend, rfl, ?_, ?_, ?_, rfl, rfl, rfl, rfl, rfl, rfl, rfl, rfl⟩
  · show (m.mem.front + 1) % m.mem.capacity = _
    rw [wrapInt_of_range (by omega) (by omega), Int.tmod_eq_emod (by omega) (by omega)]
  · show 0 ≤ (m.mem.front + 1) % m.mem.capacity
    exact Int.emod_nonneg _ (by omega)
  · show (m.mem.front + 1) % m.mem.capacity < m.mem.capacity
    exact Int.emod_lt_of_pos _ (by omega)

/-- C15's amended statement at the sample queue, whose front cursor wraps from 2
to 0. -/
theorem C15_endChat_postcondition_witness :
    0 < ({ sampleQueue with front := 2 } : CircularQueue).size ∧
    1 ≤ ({ sampleQueue with front := 2 } : CircularQueue).capacity ∧
    -1 ≤ ({ sampleQueue with front := 2 } : CircularQueue).front ∧
    ({ sampleQueue with front := 2 } : CircularQueue).front < 2147483647 ∧
    ∃ m', endChat { mem := { sampleQueue with front := 2 }, disk := none } = some (true, m') ∧
      m'.mem.front = (2 + 1) % 3 ∧
      m'.mem.front = Int.tmod (wrapInt (2 + 1)) 3 ∧
      0 ≤ m'.mem.front ∧ m'.mem.front < 3 ∧
      m'.mem.size = 1 - 1 ∧
      m'.mem.rear = sampleQueue.rear ∧ m'.mem.capacity = sampleQueue.capacity ∧
      m'.mem.currentAgentIndex = sampleQueue.currentAgentIndex ∧
      m'.mem.nextId = sampleQueue.nextId ∧ m'.mem.agents = sampleQueue.agents ∧
      m'.mem.queue = sampleQueue.queue ∧
      m'.disk = some (saveState m'.mem) :=
  ⟨by decide, by decide, by decide, by decide,
    C15_endChat_postcondition { mem := { sampleQueue with front := 2 }, disk := none }
      (by decide) (by decide) (by decide) (by decide)⟩

/-- C16 fails on the code: after `addChat` of the customer name `a"b` on the
fresh capacity-10 queue, `getJsonStatus` returns the text below, with the quote
of the name unescaped. The string value that starts after `"customerName":"`
reads as `a`, not as the name, and what follows it is `b`, not a comma or a
closing brace; with a line feed in the name the value has no reading at all. -/
theorem C16_status_unescaped :
    ((exec (start (freshQueue 10) none) [Op.add quotedName "t"]).bind
        (fun r => getJsonStatus r.machine)).map Prod.fst
      = some ("\x7b\"totalChats\":1,\"capacity\":10,\"chats\":[\x7b\"id\":1,"
          ++ "\"customerName\":\"" ++ quotedName
          ++ "\",\"agentName\":\"Agent Alice\",\"timestamp\":\"t\"\x7d],"
          ++ "\"agents\":[\"Agent Alice\",\"Agent Bob\",\"Agent Charlie\",\"Agent Diana\","
          ++ "\"Agent Eve\"]\x7d") ∧
    readJsonString (quotedName
        ++ "\",\"agentName\":\"Agent Alice\",\"timestamp\":\"t\"\x7d],"
        ++ "\"agents\":[\"Agent Alice\",\"Agent Bob\",\"Agent Charlie\",\"Agent Diana\","
        ++ "\"Agent Eve\"]\x7d").toList
      = some ("a".toList, ("b\",\"agentName\":\"Agent Alice\",\"timestamp\":\"t\"\x7d],"
        ++ "\"agents\":[\"Agent Alice\",\"Agent Bob\",\"Agent Charlie\",\"Agent Diana\","
        ++ "\"Agent Eve\"]\x7d").toList) ∧
    "a" ≠ quotedName ∧
    ((exec (start (freshQueue 10) none) [Op.add "a\nb" "t"]).bind
        (fun r => getJsonStatus r.machine)).map Prod.fst
      = some ("\x7b\"totalChats\":1,\"capacity\":10,\"chats\":[\x7b\"id\":1,"
          ++ "\"customerName\":\"" ++ "a\nb"
          ++ "\",\"agentName\":\"Agent Alice\",\"timestamp\":\"t\"\x7d],"
          ++ "\"agents\":[\"Agent Alice\",\"Agent Bob\",\"Agent Charlie\",\"Agent Diana\","
          ++ "\"Agent Eve\"]\x7d") ∧
    readJsonString ("a\nb"
        ++ "\",\"agentName\":\"Agent Alice\",\"timestamp\":\"t\"\x7d],"
        ++ "\"agents\":[\"Agent Alice\",\"Agent Bob\",\"Agent Charlie\",\"Agent Diana\","
        ++ "\"Agent Eve\"]\x7d").toList = none := by
  refine ⟨by decide, by decide, by decide, by decide, by decide⟩

/-! ## Safety of subscripts and divisors -/

theorem listChats_eq {C : Int} {A : List String} {m : Machine} (h : Inv C A m.mem)
    (hC : 1 ≤ C) : ∃ lines, listChats m = some (lines, m) := by
  unfold listChats
  by_cases he : isEmpty m.mem = true
  · rw [if_pos he]; exact ⟨_, rfl⟩
  · rw [if_neg he, activeChats_eq h hC]; exact ⟨_, rfl⟩

/-- Any of the four calls returns and keeps the invariant. -/
theorem runCommand_inv {C : Int} {A : List String} {m : Machine} (h : Inv C A m.mem)
    (hC : 1 ≤ C) (c : Command) : ∃ m', runCommand m c = some m' ∧ Inv C A m'.mem := by
  cases c with
  | add name now =>
    obtain ⟨ok, m', hadd⟩ := addChat_total m name now h hC
    refine ⟨m', by simp only [runCommand, hadd, Option.map_some'], ?_⟩
    cases ok with
    | true => exact inv_addChat h hC hadd
    | false => rw [addChat_false hadd]; exact h
  | finish =>
    obtain ⟨ok, m', hend⟩ := endChat_total m h hC
    refine ⟨m', by simp only [runCommand, hend, Option.map_some'], ?_⟩
    cases ok with
    | true => exact inv_endChat h hC hend
    | false => rw [endChat_false hend]; exact h
  | list =>
    obtain ⟨lines, hl⟩ := listChats_eq h hC
    exact ⟨m, by simp only [runCommand, hl, Option.map_some'], h⟩
  | json =>
    exact ⟨m, by simp only [runCommand, getJsonStatus_eq h hC, Option.map_some'], h⟩

theorem runCommands_inv {C : Int} {A : List String} (hC : 1 ≤ C) (cs : List Command) :
    ∀ m : Machine, Inv C A m.mem → ∃ m', runCommands m cs = some m' ∧ Inv C A m'.mem := by
  induction cs with
  | nil => intro m h; exact ⟨m, rfl, h⟩
  | cons c cs ih =>
    intro m h
    obtain ⟨m1, h1, hinv1⟩ := runCommand_inv h hC c
    obtain ⟨m2, h2, hinv2⟩ := ih m1 hinv1
    exact ⟨m2, by simp only [runCommands, h1, h2], hinv2⟩

/-- With capacity 0 and size 0 each of the four calls returns at once, nothing
changed. -/
theorem runCommands_zero (cs : List Command) :
    ∀ m : Machine, m.mem.size = 0 → m.mem.capacity = 0 → runCommands m cs = some m := by
  induction cs with
  | nil => intro m _ _; rfl
  | cons c cs ih =>
    intro m hs hc
    have h1 : runCommand m c = some m := by
      cases c with
      | add name now => simp [runCommand, addChat, isFull, hs, hc]
      | finish => simp [runCommand, endChat, isEmpty, hs]
      | list => simp [runCommand, listChats, isEmpty, hs]
      | json => simp [runCommand, getJsonStatus, activeChats, chatsFrom, hs]
    simp only [runCommands, h1]
    exact ih m hs hc

/-- C18 (subscript and division safety on reachable states). From a queue
constructed with capacity `C ≥ 0` and no state file, every sequence of
`addChat`/`endChat`/`listChats`/`getJsonStatus` calls returns, and so does each of
the four calls in the state reached: where `addChat` gets past `isFull`, the
capacity and the agent count are not zero, `(rear + 1) % capacity` is a subscript
of the slot array and `currentAgentIndex` one of the agent list; where the queue
is not empty, the capacity is not zero and `(front + i) % capacity` is a subscript
of the slot array for every `i < size`; for `C = 0` the queue is full and empty,
so `addChat` and `endChat` return false before any `%` or subscript. -/
theorem C18_index_division_safety (C : Int) (hC : 0 ≤ C) (cs : List Command) :
    ∃ m, runCommands { mem := freshQueue C, disk := none } cs = some m ∧
      (∀ name now, ∃ ok m', addChat m name now = some (ok, m')) ∧
      (∃ ok m', endChat m = some (ok, m')) ∧
      (∃ lines, listChats m = some (lines, m)) ∧
      (∃ text, getJsonStatus m = some (text, m)) ∧
      (m.mem.size ≠ m.mem.capacity →
        m.mem.capacity ≠ 0 ∧ m.mem.agents.length ≠ 0 ∧
        (∃ index, cRem (m.mem.rear + 1) m.mem.capacity = some index ∧
          0 ≤ index ∧ index < m.mem.queue.length) ∧
        0 ≤ m.mem.currentAgentIndex ∧ m.mem.currentAgentIndex < m.mem.agents.length) ∧
      (m.mem.size ≠ 0 →
        m.mem.capacity ≠ 0 ∧
        ∀ i : Nat, (i : Int) < m.mem.size →
          ∃ index, cRem (m.mem.front + (i : Int)) m.mem.capacity = some index ∧
            0 ≤ index ∧ index < m.mem.queue.length) ∧
      (C = 0 → ∀ name now,
        addChat m name now = some (false, m) ∧ endChat m = some (false, m)) := by
  by_cases h0 : C = 0
  · subst h0
    have hrun := runCommands_zero cs { mem := freshQueue 0, disk := none } rfl rfl
    refine ⟨_, hrun, fun name now => ⟨false, _, rfl⟩, ⟨false, _, rfl⟩, ⟨_, rfl⟩, ⟨_, rfl⟩,
      fun hne => absurd rfl hne, fun hne => absurd rfl hne, fun _ name now => ⟨rfl, rfl⟩⟩
  · have hC1 : 1 ≤ C := by omega
    obtain ⟨m, hm, hi⟩ := runCommands_inv hC1 cs { mem := freshQueue C, disk := none }
      (inv_emptyQueue C defaultAgents hC1 (by decide))
    have hcap := hi.cap
    have hlen := hi.len
    have hA : (0 : Int) < m.mem.agents.length := by
      have := hi.cai_lo; have := hi.cai_hi; rw [hi.agents]; omega
    refine ⟨m, hm, fun name now => addChat_total m name now hi hC1, endChat_total m hi hC1,
      listChats_eq hi hC1, ⟨_, getJsonStatus_eq hi hC1⟩, ?_, ?_, fun hz => absurd hz h0⟩
    · intro _
      have hrear := hi.rear_lo
      refine ⟨by omega, by omega, ⟨_, cRem_of_nonneg (by omega) (by omega), ?_, ?_⟩,
        hi.cai_lo, by rw [hi.agents]; exact hi.cai_hi⟩
      · exact Int.emod_nonneg _ (by omega)
      · have := Int.emod_lt_of_pos (m.mem.rear + 1) (show 0 < m.mem.capacity by omega)
        omega
    · intro _
      refine ⟨by omega, fun i _ => ?_⟩
      have hfront := hi.front_lo
      refine ⟨_, cRem_of_nonneg (by omega) (by omega), ?_, ?_⟩
      · exact Int.emod_nonneg _ (by omega)
      · have := Int.emod_lt_of_pos (m.mem.front + (i : Int))
          (show 0 < m.mem.capacity by omega)
        omega

/-- C18 at capacity 2 on a run through all four calls, and at capacity 0. -/
theorem C18_index_division_safety_witness :
    (0 : Int) ≤ 2 ∧
    (∃ m, runCommands { mem := freshQueue 2, disk := none }
        [Command.add "a" "t", Command.list, Command.add "b" "t", Command.add "c" "t",
          Command.json, Command.finish, Command.add "d" "t", Command.list] = some m ∧
      (∃ lines, listChats m = some (lines, m)) ∧
      (∃ text, getJsonStatus m = some (text, m))) ∧
    ∃ m, runCommands { mem := freshQueue 0, disk := none }
        [Command.add "a" "t", Command.finish, Command.list, Command.json] = some m ∧
      addChat m "b" "t" = some (false, m) ∧ endChat m = some (false, m) := by
  obtain ⟨m, hm, _, _, hl, hj, _⟩ := C18_index_division_safety 2 (by decide)
    [Command.add "a" "t", Command.list, Command.add "b" "t", Command.add "c" "t",
      Command.json, Command.finish, Command.add "d" "t", Command.list]
  obtain ⟨m0, hm0, _, _, _, _, _, _, hz⟩ := C18_index_division_safety 0 (by decide)
    [Command.add "a" "t", Command.finish, Command.list, Command.json]
  exact ⟨by decide, ⟨m, hm, hl, hj⟩, m0, hm0, (hz rfl "b" "t").1, (hz rfl "b" "t").2⟩

/-! ## Saving and loading between calls -/

theorem wellTyped_addChat {C : Int} {A : List String} {m m' : Machine} {c t : String}
    (h : Inv C A m.mem) (ht : WellTyped m.mem) (hC : 1 ≤ C) (hC2 : C < 2147483648)
    (hA : (A.length : Int) < 2147483648) (hadd : addChat m c t = some (true, m')) :
    WellTyped m'.mem := by
  have h' := inv_addChat h hC hadd
  obtain ⟨agent, hagent⟩ := inv_agent h
  have hne : m.mem.size ≠ m.mem.capacity := by
    intro heq
    simp [addChat, isFull, heq] at hadd
  have hadd2 := addChat_eq m c t agent hne (by rw [h.cap]; exact hC) h.rear_lo
    (by rw [h.cap, h.len]) h.cai_lo hagent
  have hm' := hadd2.symm.trans hadd
  simp only [Option.some.injEq, Prod.mk.injEq, true_and] at hm'
  have h1 := h'.front_lo
  have h2 := h'.front_hi
  have h3 := h'.size_lo
  have h4 := h'.size_hi
  have h5 := h'.rear_lo
  have h6 := h'.rear_hi
  have h7 := h'.cai_lo
  have h8 := h'.cai_hi
  obtain ⟨_, _, _, _, _, hnid, hslots⟩ := ht
  refine ⟨⟨by omega, by omega⟩, ⟨by omega, by omega⟩, ⟨by omega, by omega⟩, ?_,
    ⟨by omega, by omega⟩, ?_, ?_⟩
  · rw [h'.cap]; exact ⟨by omega, by omega⟩
  · rw [← hm']; exact wrapInt_isInt32 _
  · rw [← hm']
    intro chat hmem
    rcases List.mem_or_eq_of_mem_set hmem with hold | hnew
    · exact hslots chat hold
    · rw [hnew]; exact hnid

theorem wellTyped_endChat {C : Int} {A : List String} {m m' : Machine}
    (h : Inv C A m.mem) (ht : WellTyped m.mem) (hC : 1 ≤ C) (hC2 : C < 2147483648)
    (hend : endChat m = some (true, m')) : WellTyped m'.mem := by
  have h' := inv_endChat h hC hend
  have hne : m.mem.size ≠ 0 := by
    intro heq
    simp [endChat, isEmpty, heq] at hend
  have hend2 := endChat_eq m hne (by rw [h.cap]; exact hC) h.front_lo
  have hm' := hend2.symm.trans hend
  simp only [Option.some.injEq, Prod.mk.injEq, true_and] at hm'
  have h1 := h'.front_lo
  have h2 := h'.front_hi
  have h3 := h'.size_lo
  have h4 := h'.size_hi
  obtain ⟨_, hrear, _, hcap, hcai, hnid, hslots⟩ := ht
  refine ⟨⟨by omega, by omega⟩, ?_, ⟨by omega, by omega⟩, ?_, ?_, ?_, ?_⟩
  · rw [← hm']; exact hrear
  · rw [← hm']; exact hcap
  · rw [← hm']; exact hcai
  · rw [← hm']; exact hnid
  · rw [← hm']; exact hslots

theorem shaped_facts {C : Int} {q : CircularQueue} (h : Shaped C q) :
    q.capacity = C ∧ (q.queue.length : Int) = C ∧ WellTyped q := by
  rcases h with ⟨_, hi, ht⟩ | ⟨h0, hq⟩
  · exact ⟨hi.cap, hi.len, ht⟩
  · subst h0; subst hq
    exact ⟨rfl, rfl, by decide⟩

theorem shaped_fresh (C : Int) (hC : 0 ≤ C) (hC2 : C < 2147483648) :
    Shaped C (freshQueue C) := by
  by_cases h0 : C = 0
  · right; exact ⟨h0, by rw [h0]⟩
  · left
    have hC1 : 1 ≤ C := by omega
    have hinv := runInv_start C defaultAgents hC1 (by decide) none
    exact ⟨hC1, inv_emptyQueue C defaultAgents hC1 (by decide),
      wellTyped_of_runInv hinv hC2 (by decide)⟩

/-- A mutating call returns and leaves a shaped queue, with its snapshot in the
file when it succeeded. -/
theorem shaped_call {C : Int} {m : Machine} (op : Op) (hC2 : C < 2147483648)
    (h : Shaped C m.mem) :
    ∃ ok m', call m op = some (ok, m') ∧ Shaped C m'.mem ∧
      (ok = true → m'.disk = some (saveState m'.mem)) ∧ (ok = false → m' = m) := by
  rcases h with ⟨hC, hi, ht⟩ | ⟨h0, hq⟩
  · cases op with
    | add c t =>
      obtain ⟨ok, m', hadd⟩ := addChat_total m c t hi hC
      refine ⟨ok, m', hadd, ?_, ?_, ?_⟩
      · cases ok with
        | true =>
          exact Or.inl ⟨hC, inv_addChat hi hC hadd,
            wellTyped_addChat hi ht hC hC2 (by decide) hadd⟩
        | false => rw [addChat_false hadd]; exact Or.inl ⟨hC, hi, ht⟩
      · intro hok; subst hok; exact addChat_saved hadd
      · intro hok; subst hok; exact addChat_false hadd
    | finish =>
      obtain ⟨ok, m', hend⟩ := endChat_total m hi hC
      refine ⟨ok, m', hend, ?_, ?_, ?_⟩
      · cases ok with
        | true =>
          exact Or.inl ⟨hC, inv_endChat hi hC hend, wellTyped_endChat hi ht hC hC2 hend⟩
        | false => rw [endChat_false hend]; exact Or.inl ⟨hC, hi, ht⟩
      · intro hok; subst hok; exact endChat_saved hend
      · intro hok; subst hok; exact endChat_false hend
  · have hs : m.mem.size = 0 := by rw [hq]; rfl
    have hc : m.mem.capacity = 0 := by rw [hq]; rfl
    cases op with
    | add c t =>
      exact ⟨false, m, by simp [call, addChat, isFull, hs, hc], Or.inr ⟨h0, hq⟩,
        fun hok => Bool.noConfusion hok, fun _ => rfl⟩
    | finish =>
      exact ⟨false, m, by simp [call, endChat, isEmpty, hs], Or.inr ⟨h0, hq⟩,
        fun hok => Bool.noConfusion hok, fun _ => rfl⟩

/-- Every step returns and keeps the invariant. -/
theorem doStep_inv {C : Int} {m : Machine} (hC2 : C < 2147483648) (h : StepInv C m)
    (s : Step) : ∃ m', doStep m s = some m' ∧ StepInv C m' := by
  obtain ⟨hshape, hdisk⟩ := h
  cases s with
  | add c t =>
    obtain ⟨ok, m', hcall, hs', hsaved, hsame⟩ := shaped_call (Op.add c t) hC2 hshape
    refine ⟨m', by simp only [doStep]; rw [show addChat m c t = some (ok, m') from hcall]; rfl,
      hs', ?_⟩
    cases ok with
    | true =>
      intro j hj
      rw [hsaved rfl] at hj
      exact ⟨m'.mem, (Option.some.inj hj).symm, hs'⟩
    | false => rw [hsame rfl]; exact hdisk
  | finish =>
    obtain ⟨ok, m', hcall, hs', hsaved, hsame⟩ := shaped_call Op.finish hC2 hshape
    refine ⟨m', by simp only [doStep]; rw [show endChat m = some (ok, m') from hcall]; rfl,
      hs', ?_⟩
    cases ok with
    | true =>
      intro j hj
      rw [hsaved rfl] at hj
      exact ⟨m'.mem, (Option.some.inj hj).symm, hs'⟩
    | false => rw [hsame rfl]; exact hdisk
  | save =>
    refine ⟨_, rfl, hshape, ?_⟩
    intro j hj
    exact ⟨m.mem, (Option.some.inj hj).symm, hshape⟩
  | load =>
    cases hd : m.disk with
    | none =>
      refine ⟨{ mem := m.mem, disk := m.disk }, ?_, hshape, hdisk⟩
      simp only [doStep, hd, loadState, Option.map_some']
    | some j =>
      obtain ⟨q, hj, hq⟩ := hdisk j hd
      obtain ⟨hcap, hlen, hty⟩ := shaped_facts hq
      have hload : loadState m.mem (some j) = some q := by
        rw [hj]
        exact loadState_saveState q m.mem hty (by rw [hcap, hlen])
      refine ⟨{ mem := q, disk := m.disk }, ?_, hq, hdisk⟩
      simp only [doStep, hd, hload, Option.map_some']

theorem runSteps_inv {C : Int} (hC2 : C < 2147483648) (ss : List Step) :
    ∀ m : Machine, StepInv C m → ∃ m', runSteps m ss = some m' ∧ StepInv C m' := by
  induction ss with
  | nil => intro m h; exact ⟨m, rfl, h⟩
  | cons s ss ih =>
    intro m h
    obtain ⟨m1, h1, hinv1⟩ := doStep_inv hC2 h s
    obtain ⟨m2, h2, hinv2⟩ := ih m1 hinv1
    exact ⟨m2, by simp only [runSteps, h1, h2], hinv2⟩

/-- C19 (the slot array keeps the length of the capacity). From a queue
constructed with an `int` capacity `C ≥ 0` and no state file, every sequence of
`addChat`, `endChat`, `saveState` and `loadState` steps returns, and in the state
reached the slot array has length `capacity` and `capacity = C`; the file, when
there is one, stores exactly `capacity` slots of its own `capacity` member, so
the padding line of `loadState` leaves the slots loaded from it as they are. -/
theorem C19_slot_array_length_fixed (C : Int) (hC : 0 ≤ C) (hC2 : C < 2147483648)
    (ss : List Step) :
    ∃ m, runSteps { mem := freshQueue C, disk := none } ss = some m ∧
      (m.mem.queue.length : Int) = m.mem.capacity ∧ m.mem.capacity = C ∧
      ∀ j, m.disk = some j →
        ∃ items slots capacity, j.itemsAt "queue" = some items ∧
          loadSlots items = some slots ∧
          j.valueInt "capacity" m.mem.capacity = some capacity ∧
          (slots.length : Int) = capacity ∧ capacity = C ∧
          ensureSize slots capacity = slots ∧
          ∃ q, loadState m.mem (some j) = some q ∧ q.queue = slots := by
  have h0 : StepInv C { mem := freshQueue C, disk := none } :=
    ⟨shaped_fresh C hC hC2, fun j hj => Option.noConfusion hj⟩
  obtain ⟨m, hm, hshape, hdisk⟩ := runSteps_inv hC2 ss _ h0
  obtain ⟨hcap, hlen, _⟩ := shaped_facts hshape
  refine ⟨m, hm, by rw [hlen, hcap], hcap, ?_⟩
  intro j hj
  obtain ⟨q, hq, hqs⟩ := hdisk j hj
  obtain ⟨hqcap, hqlen, hqty⟩ := shaped_facts hqs
  have hslots : ∀ chat ∈ q.queue, IsInt32 chat.id := hqty.2.2.2.2.2.2
  have hcapty : IsInt32 q.capacity := hqty.2.2.2.1
  subst hq
  refine ⟨q.queue.map slotJson, q.queue, q.capacity, ?_, loadSlots_map_slotJson _ hslots, ?_,
    by rw [hqlen, hqcap], hqcap, ensureSize_of_le _ _ (by rw [hqcap, hqlen]),
    q, loadState_saveState q m.mem hqty (by rw [hqcap, hqlen]), rfl⟩
  · simp [saveState, Json.itemsAt, findMember]
  · simp [saveState, Json.valueInt, findMember, Json.getInt,
      wrapInt_of_range hcapty.1 hcapty.2]

/-- C19 at capacity 3 on a run that saves and loads between calls. -/
theorem C19_slot_array_length_fixed_witness :
    (0 : Int) ≤ 3 ∧ (3 : Int) < 2147483648 ∧
    ∃ m, runSteps { mem := freshQueue 3, disk := none }
        [Step.load, Step.add "a" "t", Step.save, Step.add "b" "t", Step.finish, Step.load,
          Step.add "c" "t", Step.add "d" "t", Step.add "e" "t", Step.save, Step.load]
        = some m ∧
      (m.mem.queue.length : Int) = m.mem.capacity ∧ m.mem.capacity = 3 ∧
      ∀ j, m.disk = some j →
        ∃ items slots capacity, j.itemsAt "queue" = some items ∧
          loadSlots items = some slots ∧
          j.valueInt "capacity" m.mem.capacity = some capacity ∧
          (slots.length : Int) = capacity ∧ capacity = 3 ∧
          ensureSize slots capacity = slots ∧
          ∃ q, loadState m.mem (some j) = some q ∧ q.queue = slots :=
  ⟨by decide, by decide, C19_slot_array_length_fixed 3 (by decide) (by decide) _⟩

end CIRC
